import Mathlib

/-!
Verification development for the Prompt2OpenSCENARIO dataset-preprocessing
pipeline.  The XML trees manipulated by the scripts are embedded as rose
trees (`XElem`); each node carries a numeric identity `nid` standing for
Python object identity (the scripts remove and update nodes by `is`
identity, which is faithful whenever identities are distinct).
-/

namespace S2P

/-- An XML element: identity, tag, attribute list, children.
Mirrors `xml.etree.ElementTree.Element` (attributes form a dict; the
scripts only read and set string attributes). -/
inductive XElem : Type where
  | mk (nid : Nat) (tag : String) (attrs : List (String × String)) (children : List XElem)
deriving Repr

def XElem.nid : XElem → Nat
  | .mk i _ _ _ => i

def XElem.tag : XElem → String
  | .mk _ t _ _ => t

def XElem.attrs : XElem → List (String × String)
  | .mk _ _ a _ => a

def XElem.children : XElem → List XElem
  | .mk _ _ _ cs => cs

mutual
def XElem.beq : XElem → XElem → Bool
  | .mk i t a cs, .mk i' t' a' cs' =>
    i == i' && t == t' && a == a' && XElem.beqList cs cs'

def XElem.beqList : List XElem → List XElem → Bool
  | [], [] => true
  | c :: cs, c' :: cs' => XElem.beq c c' && XElem.beqList cs cs'
  | _, _ => false
end

instance : BEq XElem := ⟨XElem.beq⟩

mutual
def XElem.beq_refl : (e : XElem) → XElem.beq e e = true
  | .mk i t a cs => by
    simp [XElem.beq]
    exact XElem.beqList_refl cs

def XElem.beqList_refl : (l : List XElem) → XElem.beqList l l = true
  | [] => rfl
  | c :: cs => by
    simp [XElem.beqList]
    exact ⟨XElem.beq_refl c, XElem.beqList_refl cs⟩
end

mutual
def XElem.eq_of_beq : {e e' : XElem} → XElem.beq e e' = true → e = e'
  | .mk i t a cs, .mk i' t' a' cs', h => by
    simp [XElem.beq] at h
    obtain ⟨⟨⟨h1, h2⟩, h3⟩, h4⟩ := h
    subst h1; subst h2; subst h3
    have := XElem.eqList_of_beqList h4
    subst this
    rfl

def XElem.eqList_of_beqList : {l l' : List XElem} → XElem.beqList l l' = true → l = l'
  | [], [], _ => rfl
  | c :: cs, c' :: cs', h => by
    simp [XElem.beqList] at h
    have h1 := XElem.eq_of_beq h.1
    have h2 := XElem.eqList_of_beqList h.2
    subst h1; subst h2
    rfl
  | [], _ :: _, h => by simp [XElem.beqList] at h
  | _ :: _, [], h => by simp [XElem.beqList] at h
end

instance : DecidableEq XElem := fun e e' =>
  if h : XElem.beq e e' = true then
    isTrue (XElem.eq_of_beq h)
  else
    isFalse (fun he => h (he ▸ XElem.beq_refl e))

/-! ## Utility XML helpers shared by the scripts -/

/-- Substring of `cs` after the first `'\x7d'` character, if any. -/
def afterBrace : List Char → Option (List Char)
  | [] => none
  | c :: cs => if c = '\x7d' then some cs else afterBrace cs

/-- `localname` from `reduce_xosc.py` (and `ln` from `inject_diversity.py`):
`tag.split("\x7d", 1)[-1] if "\x7d" in tag else tag`, i.e. everything after
the first closing brace when one is present. -/
def localname (tag : String) : String :=
  match afterBrace tag.data with
  | some cs => ⟨cs⟩
  | none => tag

/-- `get_attr(elem, attr)` / `elem.attrib.get(attr)`: attribute lookup,
`none` when absent. -/
def getAttr (e : XElem) (k : String) : Option String :=
  e.attrs.lookup k

/-- Python dict assignment `elem.set(k, v)`: replace the value when the key
is present, otherwise append the pair. -/
def setPair (k v : String) : List (String × String) → List (String × String)
  | [] => [(k, v)]
  | (k', v') :: rest => if k' = k then (k, v) :: rest else (k', v') :: setPair k v rest

def setAttr (e : XElem) (k v : String) : XElem :=
  .mk e.nid e.tag (setPair k v e.attrs) e.children

/-- `has_child_local(elem, child_name)`: some direct child has the given
local name. -/
def hasChildLocal (e : XElem) (childName : String) : Bool :=
  e.children.any (fun ch => localname ch.tag == childName)

mutual
/-- The node list produced by `iter_with_parent` (and `Element.iter`):
depth-first preorder, a node before its children, children in order. -/
def preorder : XElem → List XElem
  | .mk i t a cs => .mk i t a cs :: preorderList cs

def preorderList : List XElem → List XElem
  | [] => []
  | c :: cs => preorder c ++ preorderList cs
end

/-- `findall_local(root, name)`: all elements of the tree whose tag has the
given local name, in document (preorder) order. -/
def findall_local (root : XElem) (name : String) : List XElem :=
  (preorder root).filter (fun n => localname n.tag == name)

mutual
/-- Remove from the tree every non-root node satisfying `p`, together with
its subtree; the decision for a node is taken on the subtree as it stands
when its parent is processed (top-down).  This is the net effect of the
scripts' pattern of collecting nodes and calling `parent.remove(node)` on
the matching ones: each matching node is detached from its parent, and in
the preorder snapshots used by the scripts a node's decision is always
taken before any mutation below it. -/
def pruneIf (p : XElem → Bool) : XElem → XElem
  | .mk i t a cs => .mk i t a (pruneList p cs)

def pruneList (p : XElem → Bool) : List XElem → List XElem
  | [] => []
  | c :: cs => if p c then pruneList p cs else pruneIf p c :: pruneList p cs
end

/-- Removal of the (non-root) node with identity `i`, as done by the
searches `for n, parent in iter_with_parent(root): if n is so ...`;
a no-op when no live node has that identity. -/
def removeById (i : Nat) (root : XElem) : XElem :=
  pruneIf (fun e => e.nid == i) root

mutual
/-- Apply `f` to every node with identity `i` (in-place mutation of the
node found by identity; with distinct identities this touches one node). -/
def updateById (i : Nat) (f : XElem → XElem) : XElem → XElem
  | .mk j t a cs =>
    let e := XElem.mk j t a (updateListById i f cs)
    if j == i then f e else e

def updateListById (i : Nat) (f : XElem → XElem) : List XElem → List XElem
  | [] => []
  | c :: cs => updateById i f c :: updateListById i f cs
end

def appendChild (ch : XElem) (e : XElem) : XElem :=
  .mk e.nid e.tag e.attrs (e.children ++ [ch])

/-- Python truthiness of an optional string (`if s:`): present and
non-empty. -/
def truthy : Option String → Bool
  | some s => s ≠ ""
  | none => false

/-! ## `reduce_xosc.py` -/

def EGO_NAME : String := "ego_vehicle"

/-- The dictionary `name_to_obj` (`{name: so}` over the scenario objects,
inserted in order for truthy names, later insertions overwriting) queried
at `key`: the last object whose `name` attribute equals the (truthy)
key. -/
def name_to_obj_get (sos : List XElem) (key : String) : Option XElem :=
  if key = "" then none
  else (sos.filter (fun so => getAttr so "name" == some key)).getLast?

/-- `mg_refs_second_vehicle(mg, target_name)`: some element of `mg`'s
subtree (`mg.iter()`) is an `EntityRef` whose `entityRef` attribute equals
the target name. -/
def mg_refs_second_vehicle (mg : XElem) (targetName : String) : Bool :=
  (preorder mg).any (fun actor =>
    localname actor.tag == "EntityRef" && getAttr actor "entityRef" == some targetName)

/-- The per-object step of the vehicle-pruning loop (pass 1/2: keep ego,
keep Pedestrian-bearing objects, keep the saved second vehicle, remove
every other Vehicle-bearing `ScenarioObject`). -/
def pass1Step (ego_obj second_vehicle_obj : Option XElem) (r : XElem) (so : XElem) : XElem :=
  if (match ego_obj with | some e => so.nid == e.nid | none => false) then r
  else if hasChildLocal so "Pedestrian" then r
  else if hasChildLocal so "Vehicle" then
    match second_vehicle_obj with
    | some sv => if so.nid != sv.nid then removeById so.nid r else r
    | none => removeById so.nid r
  else r

/-- Pass 3 removal test: a `Private` whose `entityRef` is not allowed. -/
def privPred (allowed_refs : List String) (e : XElem) : Bool :=
  localname e.tag == "Private" &&
  !(match getAttr e "entityRef" with
    | some s => allowed_refs.contains s
    | none => false)

/-- Pass 4 removal test: a `ManeuverGroup` that does not reference the
saved second vehicle (all of them when there is no saved name). -/
def mgPred (second_vehicle_name : Option String) (e : XElem) : Bool :=
  localname e.tag == "ManeuverGroup" &&
  !(match second_vehicle_name with
    | some s => s ≠ "" && mg_refs_second_vehicle e s
    | none => false)

/-- Pass 5 removal test: a `Story` other than the first one. -/
def storyPred (firstId : Nat) (e : XElem) : Bool :=
  localname e.tag == "Story" && e.nid != firstId

/-- `reduce_xosc_tree(root)`: the five reduction passes of
`reduce_xosc.py`, translated clause by clause.  Node identity (`is`)
becomes `nid` equality. -/
def reduce_xosc_tree (root : XElem) : XElem :=
  -- 1) identify the ScenarioObjects and the kept "second vehicle"
  let scenario_objects := findall_local root "ScenarioObject"
  let ego_obj := name_to_obj_get scenario_objects EGO_NAME
  let vehicle_objs := scenario_objects.filter (fun so =>
      !(getAttr so "name" == some EGO_NAME) &&
      (hasChildLocal so "Vehicle" && !hasChildLocal so "Pedestrian"))
  let second_vehicle_obj := vehicle_objs.head?
  let second_vehicle_name := second_vehicle_obj.bind (fun so => getAttr so "name")
  -- 2) prune vehicle ScenarioObjects, keeping ego, pedestrians and the kept one
  let root1 := scenario_objects.foldl (pass1Step ego_obj second_vehicle_obj) root
  -- recompute the scenario objects and the saved second vehicle
  let scenario_objects2 := findall_local root1 "ScenarioObject"
  let second_vehicle_obj2 :=
      match second_vehicle_name with
      | some s => if s ≠ "" then name_to_obj_get scenario_objects2 s else none
      | none => none
  -- 3) drop Private entries whose entityRef is not allowed
  let allowed_refs : List String :=
      EGO_NAME :: (match second_vehicle_obj2, second_vehicle_name with
        | some _, some s => if s ≠ "" then [s] else []
        | _, _ => [])
  let root3 := pruneIf (privPred allowed_refs) root1
  -- 4) keep only ManeuverGroups that reference the saved second vehicle
  let root4 := pruneIf (mgPred second_vehicle_name) root3
  -- 5) keep only the first Story
  let stories := findall_local root4 "Story"
  match stories with
  | [] => root4
  | st0 :: rest =>
    if rest.isEmpty then root4
    else pruneIf (storyPred st0.nid) root4

/-! ## Structured scenario documents

The spec's data model (§3): a `ScenarioDocument` owns named entities with
capability children, `Private` init bindings, and stories holding
maneuver groups.  `toXElem` renders such a document into the XML tree the
scripts actually receive; the reduction claims quantify over these
documents. -/

structure SO where
  nid : Nat
  name : Option String
  caps : List String
deriving Repr, DecidableEq

def capNode (c : String) : XElem := .mk 0 c [] []

def renderSO (so : SO) : XElem :=
  .mk so.nid "ScenarioObject"
    (match so.name with | some s => [("name", s)] | none => [])
    (so.caps.map capNode)

structure Priv where
  nid : Nat
  entityRef : Option String
deriving Repr, DecidableEq

def renderPriv (pv : Priv) : XElem :=
  .mk pv.nid "Private"
    (match pv.entityRef with | some s => [("entityRef", s)] | none => []) []

structure MG where
  nid : Nat
  actors : List String
deriving Repr, DecidableEq

def refNode (r : String) : XElem := .mk 0 "EntityRef" [("entityRef", r)] []

def renderMG (mg : MG) : XElem :=
  .mk mg.nid "ManeuverGroup" []
    [.mk 0 "Actors" [] (mg.actors.map refNode)]

structure StoryS where
  nid : Nat
  mgs : List MG
deriving Repr, DecidableEq

def renderStory (st : StoryS) : XElem :=
  .mk st.nid "Story" [] [.mk 0 "Act" [] (st.mgs.map renderMG)]

structure SDoc where
  sos : List SO
  privates : List Priv
  stories : List StoryS
deriving Repr, DecidableEq

def toXElem (d : SDoc) : XElem :=
  .mk 0 "OpenSCENARIO" []
    [.mk 0 "Entities" [] (d.sos.map renderSO),
     .mk 0 "Storyboard" []
       (.mk 0 "Init" [] [.mk 0 "Actions" [] (d.privates.map renderPriv)]
        :: d.stories.map renderStory)]

/-- All identities a document assigns to removable elements. -/
def SDoc.ids (d : SDoc) : List Nat :=
  d.sos.map SO.nid ++ d.privates.map Priv.nid ++ d.stories.map StoryS.nid
    ++ d.stories.flatMap (fun st => st.mgs.map MG.nid)

def reservedTags : List String :=
  ["ScenarioObject", "Private", "ManeuverGroup", "Story"]

/-- Well-formedness of a structured document: removable elements carry
distinct positive identities (Python object identities are distinct), and
capability children of entities are ordinary capability tags, not the
reserved structural ones. -/
structure SDoc.WF (d : SDoc) : Prop where
  ids_pos : ∀ i ∈ d.ids, 1 ≤ i
  ids_nodup : d.ids.Nodup
  caps_ok : ∀ so ∈ d.sos, ∀ c ∈ so.caps, localname c ∉ reservedTags

/-! Structured-level description of the reduction (derived from the code;
the commutation theorem below proves it coincides with
`reduce_xosc_tree` on rendered documents). -/

def SO.isVehC (so : SO) : Bool := so.caps.any (fun c => localname c == "Vehicle")

def SO.isPedC (so : SO) : Bool := so.caps.any (fun c => localname c == "Pedestrian")

def egoS (d : SDoc) : Option SO :=
  (d.sos.filter (fun so => so.name == some EGO_NAME)).getLast?

def candsS (d : SDoc) : List SO :=
  d.sos.filter (fun so =>
    !(so.name == some EGO_NAME) && (so.isVehC && !so.isPedC))

def svNameS (d : SDoc) : Option String := (candsS d).head?.bind SO.name

def pass1RemoveS (egoId svId : Option Nat) (so : SO) : Bool :=
  !(match egoId with | some e => so.nid == e | none => false) &&
  !so.isPedC && so.isVehC &&
  (match svId with | some s => so.nid != s | none => true)

def allowedRefsS (d : SDoc) : List String :=
  let sos1 := d.sos.filter (fun so =>
    !pass1RemoveS ((egoS d).map SO.nid) ((candsS d).head?.map SO.nid) so)
  EGO_NAME :: (match svNameS d with
    | some s =>
      if s ≠ "" then
        match (sos1.filter (fun so => so.name == some s)).getLast? with
        | some _ => [s]
        | none => []
      else []
    | none => [])

def keepMGS (svName : Option String) (mg : MG) : Bool :=
  match svName with
  | some s => s ≠ "" && mg.actors.contains s
  | none => false

def keepPrivS (allowed : List String) (pv : Priv) : Bool :=
  match pv.entityRef with
  | some s => allowed.contains s
  | none => false

def mgFilterStory (svn : Option String) (st : StoryS) : StoryS :=
  { nid := st.nid, mgs := st.mgs.filter (keepMGS svn) }

def reduceS (d : SDoc) : SDoc :=
  { sos := d.sos.filter (fun so =>
      !pass1RemoveS ((egoS d).map SO.nid) ((candsS d).head?.map SO.nid) so),
    privates := d.privates.filter (keepPrivS (allowedRefsS d)),
    stories := (d.stories.map (mgFilterStory (svNameS d))).take 1 }

/-! ## Preorder characterization of rendered documents -/

def entElem (sos : List SO) : XElem := .mk 0 "Entities" [] (sos.map renderSO)

def actionsElem (privs : List Priv) : XElem := .mk 0 "Actions" [] (privs.map renderPriv)

def initElem (privs : List Priv) : XElem := .mk 0 "Init" [] [actionsElem privs]

def sbElem (privs : List Priv) (stories : List StoryS) : XElem :=
  .mk 0 "Storyboard" [] (initElem privs :: stories.map renderStory)

def soNodes (so : SO) : List XElem := renderSO so :: so.caps.map capNode

def actorsElem (mg : MG) : XElem := .mk 0 "Actors" [] (mg.actors.map refNode)

def mgNodes (mg : MG) : List XElem :=
  renderMG mg :: actorsElem mg :: mg.actors.map refNode

def actElem (st : StoryS) : XElem := .mk 0 "Act" [] (st.mgs.map renderMG)

def storyNodes (st : StoryS) : List XElem :=
  renderStory st :: actElem st :: st.mgs.flatMap mgNodes

/-! ## findall characterizations on rendered documents -/

def tagFilter (T : String) (n : XElem) : Bool := localname n.tag == T

/-- Membership form of the capability condition in `SDoc.WF`. -/
def CapsOk (sos : List SO) : Prop :=
  ∀ so ∈ sos, ∀ c ∈ so.caps, localname c ∉ reservedTags

/-! ## `xosc_describer.py`

`ElementTree` paths (`find`/`findall`) match fully-qualified tags — no
local-name matching here.  The supported path shapes are `./A` (child) and
`.//A` (descendant), evaluated segment by segment. -/

inductive Seg : Type where
  | child (n : String)
  | desc (n : String)
deriving Repr, DecidableEq

def childrenNamed (n : String) (e : XElem) : List XElem :=
  e.children.filter (fun c => c.tag == n)

def evalSeg (ctx : List XElem) : Seg → List XElem
  | .child nm => ctx.flatMap (childrenNamed nm)
  | .desc nm => (ctx.flatMap preorder).flatMap (childrenNamed nm)

def findallP (e : XElem) (segs : List Seg) : List XElem :=
  segs.foldl evalSeg [e]

def findP (e : XElem) (segs : List Seg) : Option XElem :=
  (findallP e segs).head?

/-- Python `a or b` on optional strings: the first truthy operand,
otherwise `b` as-is. -/
def pyOr (a b : Option String) : Option String :=
  if truthy a then a else b

mutual
def XElem.size : XElem → Nat
  | .mk _ _ _ cs => 1 + XElem.sizeList cs

def XElem.sizeList : List XElem → Nat
  | [] => 0
  | c :: cs => XElem.size c + XElem.sizeList cs
end

def sizeList_append (l₁ l₂ : List XElem) :
    XElem.sizeList (l₁ ++ l₂) = XElem.sizeList l₁ + XElem.sizeList l₂ := by
  induction l₁ with
  | nil => simp [XElem.sizeList]
  | cons c cs ih => simp [XElem.sizeList, ih]; omega

/-- The breadth-first search for the first childless node
(`stack.pop(0)` / `stack.extend(children)` in the script); in the model
every tag is a string, so the `isinstance` check always succeeds. -/
def bfs_leaf : List XElem → Option String
  | [] => none
  | node :: rest =>
    if node.children.isEmpty then some node.tag
    else bfs_leaf (rest ++ node.children)
termination_by l => XElem.sizeList l
decreasing_by
  simp only [sizeList_append]
  have h1 : XElem.size c = 1 + XElem.sizeList c.children := by
    cases c; rfl
  simp only [XElem.sizeList]
  omega

/-- The per-`Action` leaf-kind search: BFS for the deepest childless node,
falling back to the first direct child's tag. -/
def action_leaf (act : XElem) : Option String :=
  match bfs_leaf act.children with
  | some t => some t
  | none => (act.children.head?).map XElem.tag

structure Feat where
  map : Option String
  time_of_day : Option String
  weather_cloud_state : Option String
  weather_precipitation : Option String
  weather_fog : Option String
  weather_wind : Option String
  entities : List (String × String)
  initial_positions : List (Option String × Option String × Option String
    × Option String × Option String)
  events : List String
deriving Repr, DecidableEq

/-- The single-event description built by the script (name, time-trigger
clauses, leaf action kinds), `none` when no bit is produced. -/
def event_desc (ev : XElem) : Option String :=
  let ev_name := getAttr ev "name"
  let actions := findallP ev [.child "Action"]
  let start_trig := findP ev [.child "StartTrigger"]
  let bits0 : List String :=
    match ev_name with
    | some nm => if nm ≠ "" then [nm] else []
    | none => []
  let condBits : List String :=
    match start_trig with
    | none => []
    | some st =>
      (findallP st [.desc "ByValueCondition", .child "SimulationTimeCondition"]).flatMap
        (fun cond =>
          match getAttr cond "value" with
          | some v =>
            if v ≠ "" then
              match getAttr cond "rule" with
              | some r =>
                if r ≠ "" then ["when sim_time " ++ r ++ " " ++ v ++ "s"]
                else ["after " ++ v ++ "s"]
              | none => ["after " ++ v ++ "s"]
            else []
          | none => [])
  let action_types : List String := actions.flatMap (fun act =>
    match action_leaf act with
    | some t => if t ≠ "" then [t] else []
    | none => [])
  let bits := bits0 ++ condBits ++
    (if action_types.isEmpty then []
     else ["actions=" ++ String.intercalate "," action_types])
  if bits.isEmpty then none else some (String.intercalate " " bits)

/-- `extract_features_from_xosc`: the input is the parse result
(`ET.fromstring` succeeds or raises); on parse failure the initial,
fully-empty feature record is returned unchanged. -/
def extract_features_from_xosc (parsed : Option XElem) : Feat :=
  match parsed with
  | none =>
    { map := none, time_of_day := none, weather_cloud_state := none,
      weather_precipitation := none, weather_fog := none, weather_wind := none,
      entities := [], initial_positions := [], events := [] }
  | some root =>
    let mapv : Option String :=
      match findP root [.desc "RoadNetwork", .child "LogicFile"] with
      | some rn => pyOr (pyOr (getAttr rn "filepath") (getAttr rn "file")) none
      | none => none
    let tod : Option String :=
      match findP root [.desc "Environment", .child "TimeOfDay"] with
      | some t => pyOr (pyOr (getAttr t "dateTime") (getAttr t "animation")) none
      | none => none
    let wC : Option String × Option String × Option String × Option String :=
      match findP root [.desc "Environment", .child "Weather"] with
      | none => (none, none, none, none)
      | some w =>
        let cloud := getAttr w "cloudState"
        let precip : Option String :=
          match findP w [.child "Precipitation"] with
          | none => none
          | some p =>
            let ptype := getAttr p "precipitationType"
            let pint := getAttr p "intensity"
            if truthy ptype && truthy pint then
              some ((ptype.getD "") ++ " (intensity=" ++ (pint.getD "") ++ ")")
            else if truthy ptype then ptype
            else if truthy pint then some ("intensity=" ++ (pint.getD ""))
            else none
        let fog : Option String :=
          match findP w [.child "Fog"] with
          | none => none
          | some f => getAttr f "visualRange"
        let wind : Option String :=
          match findP w [.child "Wind"] with
          | none => none
          | some wd =>
            let direction := getAttr wd "direction"
            let speed := getAttr wd "speed"
            if truthy direction && truthy speed then
              some ("dir=" ++ (direction.getD "") ++ ", speed=" ++ (speed.getD ""))
            else pyOr direction speed
        (cloud, precip, fog, wind)
    let entities : List (String × String) :=
      (findallP root [.desc "Entities", .child "ScenarioObject"]).flatMap (fun ent =>
        let name := pyOr (getAttr ent "name") (getAttr ent "nameRef")
        let etype0 : String :=
          if (findP ent [.child "Pedestrian"]).isSome then "pedestrian"
          else if (findP ent [.child "MiscObject"]).isSome then "misc"
          else if (findP ent [.child "Vehicle"]).isSome then "vehicle"
          else "vehicle"
        let etype := if name == some "ego_vehicle" then "ego" else etype0
        match name with
        | some nm => if nm ≠ "" then [(nm, etype)] else []
        | none => [])
    let ips : List (Option String × Option String × Option String
        × Option String × Option String) :=
      (findallP root [.desc "Init", .child "Actions", .child "Private"]).flatMap
        (fun priv =>
          match findP priv [.child "PrivateAction", .child "TeleportAction",
              .child "Position", .child "WorldPosition"] with
          | some wp => [(getAttr priv "entityRef", getAttr wp "x", getAttr wp "y",
              getAttr wp "z", getAttr wp "h")]
          | none => [])
    let events : List String :=
      (findallP root [.desc "Storyboard", .desc "Event"]).flatMap (fun ev =>
        match event_desc ev with
        | some s => [s]
        | none => [])
    { map := mapv, time_of_day := tod,
      weather_cloud_state := wC.1, weather_precipitation := wC.2.1,
      weather_fog := wC.2.2.1, weather_wind := wC.2.2.2,
      entities := entities, initial_positions := ips, events := events }

/-- Python `f"{o}"` on an optional value: `None` prints as `"None"`. -/
def optStr : Option String → String
  | some s => s
  | none => "None"

/-- `features_to_compact_prompt`. -/
def features_to_compact_prompt (feat : Feat) : String :=
  let wparts : List String :=
    (if truthy feat.weather_cloud_state then
        ["cloud_state=" ++ (feat.weather_cloud_state.getD "")] else [])
    ++ (if truthy feat.weather_precipitation then
        ["precipitation=" ++ (feat.weather_precipitation.getD "")] else [])
    ++ (if truthy feat.weather_fog then
        ["fog=" ++ (feat.weather_fog.getD "")] else [])
    ++ (if truthy feat.weather_wind then
        ["wind=" ++ (feat.weather_wind.getD "")] else [])
  let lines : List String :=
    (if truthy feat.map then ["Map: " ++ (feat.map.getD "")] else [])
    ++ (if truthy feat.time_of_day then
        ["TimeOfDay: " ++ (feat.time_of_day.getD "")] else [])
    ++ (if wparts.isEmpty then []
        else ["Weather: " ++ String.intercalate ", " wparts])
    ++ (if feat.entities.isEmpty then []
        else ["Entities: " ++ String.intercalate ", "
          ((feat.entities.take 10).map (fun e => e.1 ++ "(" ++ e.2 ++ ")"))])
    ++ (if feat.initial_positions.isEmpty then []
        else ["InitialPositions: " ++ String.intercalate "; "
          ((feat.initial_positions.take 6).map (fun p =>
            optStr p.1 ++ "@(" ++ optStr p.2.1 ++ "," ++ optStr p.2.2.1 ++ ","
              ++ optStr p.2.2.2.1 ++ ",h=" ++ optStr p.2.2.2.2 ++ ")"))])
    ++ (if feat.events.isEmpty then []
        else ["Events: " ++ String.intercalate " | " (feat.events.take 10)])
  let body := (String.intercalate "\n" lines).trim
  if body = "" then "No features extracted." else body

/-- The truncation the renderer applies: first 10 entities, first 6
initial positions, first 10 events. -/
def truncateFeat (feat : Feat) : Feat :=
  { feat with
    entities := feat.entities.take 10
    initial_positions := feat.initial_positions.take 6
    events := feat.events.take 10 }

/-! ## `inject_diversity.py`

The script uses the module-level `random` generator, seeded once in `main`
(`random.seed(SEED)`): a single shared sequential stream of pseudo-random
draws.  The model abstracts the Mersenne-Twister stream as an arbitrary
sequence of rational draws in `[0,1)` with a cursor: each documented
primitive (`random.random`, `random.uniform`, `random.randrange`,
`random.choice`) consumes exactly one draw and advances the shared cursor.
What the claims depend on — that all primitives pull from one shared
sequential stream, and how `randrange`/the gates map a uniform draw to an
outcome — is preserved; the raw-word consumption of the underlying
Mersenne Twister is abstracted. -/

structure RNG where
  stream : Nat → ℚ
  idx : Nat

def RNG.draw (g : RNG) : ℚ × RNG :=
  (g.stream g.idx, ⟨g.stream, g.idx + 1⟩)

def py_random (g : RNG) : ℚ × RNG := g.draw

def py_uniform (a b : ℚ) (g : RNG) : ℚ × RNG :=
  let (q, g') := g.draw
  (a + (b - a) * q, g')

/-- `random.randrange(n)`: an integer uniform on `[0, n)`; a draw
`q ∈ [0,1)` maps to `⌊q·n⌋`. -/
def py_randrange (n : Nat) (g : RNG) : Nat × RNG :=
  let (q, g') := g.draw
  (Int.toNat ⌊q * n⌋, g')

/-- `random.choice(seq)`: `seq[i]` for an index uniform on the length. -/
def py_choice (l : List String) (g : RNG) : String × RNG :=
  let (q, g') := g.draw
  (l.getD (Int.toNat ⌊q * l.length⌋) "", g')

/-- Probabilities from the script header.  The decimal literals denote the
exact rationals; the claims compare draws against them only through `<`. -/
def SEED : Nat := 42

def PROB_PED : ℚ := 0.20

def PROB_TOD : ℚ := 1

def PROB_CLOUD : ℚ := 0.20

def PROB_SUN : ℚ := 0.20

def PROB_FOG : ℚ := 1

def CLOUD_CHOICES : List String := ["free", "cloudy", "skyOff", "overcast", "rainy"]

def PRECIP_CHOICES : List String := ["rain", "dry", "snow"]

/-- `ln` from `inject_diversity.py`: same code as `localname`. -/
def ln (tag : String) : String := localname tag

def find_children (parent : XElem) (lname : String) : List XElem :=
  parent.children.filter (fun c => ln c.tag == lname)

def find_first (parent : XElem) (lname : String) : Option XElem :=
  (find_children parent lname).head?

/-- `iter_by_local(root, local)`: `root.iter()` filtered by local name —
the same node list as `findall_local`. -/
def iter_by_local (root : XElem) (lname : String) : List XElem :=
  (preorder root).filter (fun el => ln el.tag == lname)

/-- `f"{v:.{nd}f}"`: fixed-point rendering with `nd` decimals.  The claims
never depend on this string; decimal rendering of the underlying binary
double is approximated by round-half-up on the exact rational. -/
def padZeros (nd : Nat) (s : String) : String :=
  String.mk (List.replicate (nd - s.length) '0') ++ s

def format_float (v : ℚ) (nd : Nat) : String :=
  let p : ℚ := (10 : ℚ) ^ nd
  let n : Int := ⌊v * p + 1 / 2⌋
  let a := n.natAbs
  (if n < 0 then "-" else "") ++ toString (a / 10 ^ nd) ++ "."
    ++ padZeros nd (toString (a % 10 ^ nd))

/-! ### The fixed datetime window

`random_datetime_post_2018` draws `randrange(int(delta.total_seconds()))`
with `start = 2019-01-01T00:00:00`, `end = 2025-08-20T23:59:59`, and
renders `start + seconds` as `%Y-%m-%dT%H:%M:%S`.  The model works at
second granularity: civil-calendar day counting for `delta`, and the
rendering of an offset in seconds from `start`. -/

def isLeap (y : Nat) : Bool :=
  y % 4 == 0 && (y % 100 != 0 || y % 400 == 0)

def daysInYear (y : Nat) : Nat := if isLeap y then 366 else 365

def monthLengths (y : Nat) : List Nat :=
  [31, if isLeap y then 29 else 28, 31, 30, 31, 30, 31, 31, 30, 31, 30, 31]

/-- Days from 2019-01-01 to the civil date `y-m-d` (for dates in or after
2019). -/
def daysFrom2019 (y m d : Nat) : Nat :=
  (List.range (y - 2019)).foldl (fun acc i => acc + daysInYear (2019 + i)) 0
    + ((monthLengths y).take (m - 1)).sum + (d - 1)

def secsFrom2019 (y mo d h mi s : Nat) : Nat :=
  daysFrom2019 y mo d * 86400 + h * 3600 + mi * 60 + s

/-- `int((end - start).total_seconds())` for the window of the script. -/
def delta_seconds : Nat :=
  secsFrom2019 2025 8 20 23 59 59 - secsFrom2019 2019 1 1 0 0 0

/-- The year containing day `d` counted from Jan 1 of year `y`, with the
remaining day-of-year; the first argument is fuel bounding the year loop
(any fuel `> d` gives the fixpoint, each step consumes at least 365
days). -/
def yearOfDays : Nat → Nat → Nat → Nat × Nat
  | 0, y, d => (y, d)
  | fuel + 1, y, d => if d < daysInYear y then (y, d) else yearOfDays fuel (y + 1) (d - daysInYear y)

/-- Month (1-based) and day-of-month (0-based) of a day-of-year given the
month lengths. -/
def monthOfDays : List Nat → Nat → Nat × Nat
  | [], d => (1, d)
  | ml :: rest, d =>
    if d < ml then (1, d)
    else
      let md := monthOfDays rest (d - ml)
      (md.1 + 1, md.2)

def pad2 (n : Nat) : String :=
  if n < 10 then "0" ++ toString n else toString n

/-- `(start + timedelta(seconds=r)).strftime("%Y-%m-%dT%H:%M:%S")` for
`start = 2019-01-01T00:00:00`. -/
def fmtFromStart (r : Nat) : String :=
  let days := r / 86400
  let rem := r % 86400
  let yd := yearOfDays (days + 1) 2019 days
  let md := monthOfDays (monthLengths yd.1) yd.2
  toString yd.1 ++ "-" ++ pad2 md.1 ++ "-" ++ pad2 (md.2 + 1) ++ "T"
    ++ pad2 (rem / 3600) ++ ":" ++ pad2 (rem % 3600 / 60) ++ ":" ++ pad2 (rem % 60)

/-- The `randrange` draw inside `random_datetime_post_2018`: the offset in
seconds from `start`. -/
def random_datetime_secs (g : RNG) : Nat × RNG :=
  py_randrange delta_seconds g

def random_datetime_post_2018 (g : RNG) : String × RNG :=
  let rg := random_datetime_secs g
  (fmtFromStart rg.1, rg.2)

/-! ### Injection ops -/

/-- `make_pedestrian_scenarioobject(name)`: the fresh subtree; `base` and
following numbers are the identities of the newly created nodes. -/
def make_pedestrian_scenarioobject (base : Nat) (name : String) : XElem :=
  .mk base "ScenarioObject" [("name", name)]
    [.mk (base + 1) "Pedestrian"
      [("model", "walker.pedestrian.0001"), ("mass", "90.0"),
       ("name", "walker.pedestrian.0001"), ("pedestrianCategory", "pedestrian")]
      [.mk (base + 2) "ParameterDeclarations" [] [],
       .mk (base + 3) "BoundingBox" []
         [.mk (base + 4) "Center" [("x", "1.5"), ("y", "0.0"), ("z", "0.9")] [],
          .mk (base + 5) "Dimensions"
            [("width", "2.1"), ("length", "4.5"), ("height", "1.8")] []],
       .mk (base + 6) "Properties" []
         [.mk (base + 7) "Property" [("name", "type"), ("value", "simulation")] []]]]

/-- The probing loop of `unique_so_name`; the fuel (first argument) bounds
the `while` loop — any fuel exceeding the number of existing names yields
its fixpoint, since some probed name must then be free. -/
def probe_name (existing : List (Option String)) : Nat → Nat → String
  | 0, i => "ped" ++ toString i
  | fuel + 1, i =>
    if existing.contains (some ("ped" ++ toString i)) then
      probe_name existing fuel (i + 1)
    else "ped" ++ toString i

def unique_so_name (ents : XElem) : String :=
  let existing := (find_children ents "ScenarioObject").map (fun so => getAttr so "name")
  if existing.contains (some "ped") = false then "ped"
  else probe_name existing (existing.length + 1) 2

/-- `inject_pedestrian(root)`: with probability `PROB_PED`, append a fresh
pedestrian `ScenarioObject` (node identities `base..base+7`) to the first
`Entities` element. -/
def inject_pedestrian (root : XElem) (base : Nat) (g : RNG) : XElem × Bool × RNG :=
  match (iter_by_local root "Entities").head? with
  | none => (root, false, g)
  | some ents =>
    let (q, g1) := py_random g
    if q < PROB_PED then
      (updateById ents.nid
        (fun e => appendChild (make_pedestrian_scenarioobject base (unique_so_name e)) e)
        root, true, g1)
    else (root, false, g1)

/-- `mutate_time_of_day(root)`: for each `Environment` with a `TimeOfDay`
child, with probability `PROB_TOD` set its `dateTime` to a fresh random
timestamp.  The draw happens only when the `TimeOfDay` exists
(short-circuit of the `and`). -/
def mutate_time_of_day (root : XElem) (g : RNG) : XElem × Nat × RNG :=
  (iter_by_local root "Environment").foldl
    (fun (st : XElem × Nat × RNG) env =>
      match find_first env "TimeOfDay" with
      | none => st
      | some tod =>
        let (q, g1) := py_random st.2.2
        if q < PROB_TOD then
          let (s, g2) := random_datetime_post_2018 g1
          (updateById tod.nid (fun e => setAttr e "dateTime" s) st.1, st.2.1 + 1, g2)
        else (st.1, st.2.1, g1))
    (root, 0, g)

/-- `mutate_weather(root)`: per `Environment` with a `Weather` child —
cloud state with probability `PROB_CLOUD`; always at least one
`Precipitation` (synthesized with identity `fid` when absent, otherwise
each existing one re-typed and given an intensity if missing); each `Sun`
with probability `PROB_SUN`; each `Fog` with probability `PROB_FOG`.
Returns the tree, the (cloud, precip, sun, fog) change counts, the next
fresh identity and the stream. -/
def mutate_weather (root : XElem) (fresh : Nat) (g : RNG) :
    XElem × (Nat × Nat × Nat × Nat) × Nat × RNG :=
  (iter_by_local root "Environment").foldl
    (fun (st : XElem × (Nat × Nat × Nat × Nat) × Nat × RNG) env =>
      match find_first env "Weather" with
      | none => st
      | some w =>
        let r0 := st.1
        let cnts := st.2.1
        let fid := st.2.2.1
        let g0 := st.2.2.2
        let (q1, g1) := py_random g0
        let cl : XElem × Nat × RNG :=
          if q1 < PROB_CLOUD then
            let (cv, g2) := py_choice CLOUD_CHOICES g1
            (updateById w.nid (fun e => setAttr e "cloudState" cv) r0, cnts.1 + 1, g2)
          else (r0, cnts.1, g1)
        let prec_list := find_children w "Precipitation"
        let pr : XElem × Nat × Nat × RNG :=
          if prec_list.isEmpty then
            let (iv, g3) := py_uniform 0 1 cl.2.2
            let (pt, g4) := py_choice PRECIP_CHOICES g3
            (updateById w.nid
              (appendChild (XElem.mk fid "Precipitation"
                [("intensity", format_float iv 3), ("precipitationType", pt)] []))
              cl.1, cnts.2.1 + 1, fid + 1, g4)
          else
            prec_list.foldl
              (fun (st2 : XElem × Nat × Nat × RNG) p =>
                let (pt, ga) := py_choice PRECIP_CHOICES st2.2.2.2
                let rA := updateById p.nid (fun e => setAttr e "precipitationType" pt) st2.1
                let ib : XElem × RNG :=
                  if (getAttr p "intensity").isNone then
                    let (iv, gb) := py_uniform 0 1 ga
                    (updateById p.nid (fun e => setAttr e "intensity" (format_float iv 3)) rA, gb)
                  else (rA, ga)
                (ib.1, st2.2.1 + 1, st2.2.2.1, ib.2))
              (cl.1, cnts.2.1, fid, cl.2.2)
        let su : XElem × Nat × RNG :=
          (find_children w "Sun").foldl
            (fun (st3 : XElem × Nat × RNG) sun =>
              let (q, ga) := py_random st3.2.2
              if q < PROB_SUN then
                let (az, gb) := py_uniform (-3.14159) 3.14159 ga
                let (el, gc) := py_uniform (-1.57080) 1.57080 gb
                let (iv, gd) := py_uniform 0 1 gc
                (updateById sun.nid
                  (fun e => setAttr (setAttr (setAttr e "azimuth" (format_float az 6))
                    "elevation" (format_float el 6)) "intensity" (format_float iv 3)) st3.1,
                 st3.2.1 + 1, gd)
              else (st3.1, st3.2.1, ga))
            (pr.1, cnts.2.2.1, pr.2.2.2)
        let fo : XElem × Nat × RNG :=
          (find_children w "Fog").foldl
            (fun (st4 : XElem × Nat × RNG) fog =>
              let (q, ga) := py_random st4.2.2
              if q < PROB_FOG then
                let (vr, gb) := py_uniform 0 1000 ga
                (updateById fog.nid (fun e => setAttr e "visualRange" (format_float vr 2)) st4.1,
                 st4.2.1 + 1, gb)
              else (st4.1, st4.2.1, ga))
            (su.1, cnts.2.2.2, su.2.2)
        (fo.1, (cl.2.1, pr.2.1, su.2.1, fo.2.1), pr.2.2.1, fo.2.2))
    (root, (0, 0, 0, 0), fresh, g)

/-- The mutation pipeline of `process_file` (parse/serialize/validate
aside): pedestrian, then time of day, then weather, all drawing from the
one shared stream. -/
def process_file_mutations (root : XElem) (base : Nat) (g : RNG) : XElem × RNG :=
  let pr := inject_pedestrian root base g
  let tr := mutate_time_of_day pr.1 pr.2.2
  let wr := mutate_weather tr.1 (base + 8) tr.2.2
  (wr.1, wr.2.2.2)

/-- The batch loop of `main`: files processed in list order, each handing
the shared stream on to the next. -/
def processBatch : List XElem → Nat → RNG → List XElem
  | [], _, _ => []
  | d :: ds, base, g =>
    let pg := process_file_mutations d base g
    pg.1 :: processBatch ds base pg.2

/-- The stream state after processing a prefix of the batch. -/
def rngAfter (ds : List XElem) (base : Nat) (g : RNG) : RNG :=
  ds.foldl (fun g0 d => (process_file_mutations d base g0).2) g

/-! ## Tag renaming (namespace insensitivity)

`mapTags f` renames every tag of the tree by `f`, leaving identities,
attributes and structure unchanged — prefixing every tag with an XML
namespace is the instance `f s = "\x7bns\x7d" ++ localname s`. -/

mutual
def mapTags (f : String → String) : XElem → XElem
  | .mk i t a cs => .mk i (f t) a (mapTagsList f cs)

def mapTagsList (f : String → String) : List XElem → List XElem
  | [] => []
  | c :: cs => mapTags f c :: mapTagsList f cs
end

/-- Prefixing with the namespace `ns` (applied to the local name, so that
the local name of the result is always the original local name). -/
def nsWrap (s : String) : String := "\x7bns\x7d" ++ localname s

/-- A scenario whose digest is non-empty (a `RoadNetwork/LogicFile` map
entry), used to compare namespaced and plain extraction. -/
def C7plain : XElem :=
  .mk 1 "OpenSCENARIO" []
    [.mk 2 "RoadNetwork" [] [.mk 3 "LogicFile" [("filepath", "Town01")] []]]

/-! ## Validation outcome handling (`process_file` in both scripts)

`xsd_ok` returns a pair `(ok, err)` with `ok ∈ \x7bTrue, False, None\x7d`
(`None` when the schema resource itself could not be loaded); its outcome
for a given file enters the model as a parameter, the control flow deciding
the claim is in the scripts themselves. -/

/-- Python truthiness of an optional boolean (`if valid:`): `None` and
`False` are both falsy. -/
def truthyB : Option Bool → Bool
  | some b => b
  | none => false

/-- `reduce_xosc.process_file` after reduction: `if ok is True: return
(True, reduced, None)` else `(False, None, "xsd_invalid: " + (err or
"unknown"))`. -/
def reduce_outcome (reduced : String) (ok : Option Bool) (err : Option String) :
    Bool × Option String × Option String :=
  if ok = some true then (true, some reduced, none)
  else (false, none,
    some ("xsd_invalid: " ++ (if truthy err then err.getD "" else "unknown")))

/-- `inject_diversity.process_file` after mutation: `if valid:` save the
serialized XML, else record `err or "schema.validate returned False"` and
move on; first component is the saved output, second the failure reason. -/
def inject_outcome (xml : String) (valid : Option Bool) (err : Option String) :
    Option String × Option String :=
  if truthyB valid then (some xml, none)
  else (none, some (if truthy err then err.getD "" else "schema.validate returned False"))

/-- The reduce batch loop: every path is processed in order; no outcome
stops the loop.  Each triple is (reduced text, xsd ok, xsd err) for one
file. -/
def reduce_batch (files : List (String × Option Bool × Option String)) :
    List (Bool × Option String × Option String) :=
  files.map (fun f => reduce_outcome f.1 f.2.1 f.2.2)

/-- The inject batch loop: same shape. -/
def inject_batch (files : List (String × Option Bool × Option String)) :
    List (Option String × Option String) :=
  files.map (fun f => inject_outcome f.1 f.2.1 f.2.2)

/-! ## Concrete documents used by the claims -/

/-- Two minimal scenarios (only an `Entities` element), used to exhibit
order dependence of the batch. -/
def C6da : XElem := .mk 1 "OpenSCENARIO" [] [.mk 2 "Entities" [] []]

def C6db : XElem := .mk 3 "OpenSCENARIO" [] [.mk 4 "Entities" [] []]

/-- A draw stream whose first value passes the pedestrian gate
(`1/10 < 0.20`) and whose later values fail it (`9/10 ≥ 0.20`). -/
def C6stream : Nat → ℚ := fun n => if n = 0 then 1 / 10 else 9 / 10

/-- A stream state with all draws `1/2`. -/
def C8g : RNG := ⟨fun _ => 1 / 2, 0⟩

def C5doc : SDoc :=
  { sos := [⟨1, some "ego_vehicle", ["Vehicle"]⟩, ⟨2, some "v1", ["Vehicle"]⟩,
            ⟨3, some "v2", ["Vehicle"]⟩, ⟨4, some "p1", ["Pedestrian"]⟩],
    privates := [⟨5, some "ego_vehicle"⟩, ⟨6, some "v1"⟩, ⟨7, some "v2"⟩],
    stories := [⟨8, [⟨9, ["v1"]⟩, ⟨10, ["v2"]⟩]⟩, ⟨11, [⟨12, ["v1"]⟩]⟩] }

def C5expected : SDoc :=
  { sos := [⟨1, some "ego_vehicle", ["Vehicle"]⟩, ⟨2, some "v1", ["Vehicle"]⟩,
            ⟨4, some "p1", ["Pedestrian"]⟩],
    privates := [⟨5, some "ego_vehicle"⟩, ⟨6, some "v1"⟩],
    stories := [⟨8, [⟨9, ["v1"]⟩]⟩] }

def C1doc : SDoc :=
  { sos := [⟨1, some "ego_vehicle", ["Vehicle"]⟩, ⟨2, some "v1", ["Vehicle"]⟩,
            ⟨3, some "v2", ["Vehicle"]⟩],
    privates := [],
    stories := [⟨4, [⟨5, ["v1", "v2"]⟩]⟩] }

theorem toXElem_eq (d : SDoc) :
    toXElem d = .mk 0 "OpenSCENARIO" [] [entElem d.sos, sbElem d.privates d.stories] := rfl

theorem preorderList_append (l₁ l₂ : List XElem) :
    preorderList (l₁ ++ l₂) = preorderList l₁ ++ preorderList l₂ := by
  induction l₁ with
  | nil => simp [preorderList]
  | cons c cs ih => simp [preorderList, ih]

theorem preorderList_eq_flatMap (l : List XElem) :
    preorderList l = l.flatMap preorder := by
  induction l with
  | nil => simp [preorderList]
  | cons c cs ih => simp [preorderList, ih, List.flatMap_cons]

theorem preorder_capNode (c : String) : preorder (capNode c) = [capNode c] := by
  simp [capNode, preorder, preorderList]

theorem preorder_refNode (r : String) : preorder (refNode r) = [refNode r] := by
  simp [refNode, preorder, preorderList]

theorem preorderList_map_capNode (caps : List String) :
    preorderList (caps.map capNode) = caps.map capNode := by
  induction caps with
  | nil => simp [preorderList]
  | cons c cs ih => simp [preorderList, preorder, capNode, ih]

theorem preorderList_map_refNode (rs : List String) :
    preorderList (rs.map refNode) = rs.map refNode := by
  induction rs with
  | nil => simp [preorderList]
  | cons r rs ih => simp [preorderList, preorder, refNode, ih]

theorem preorderList_map_renderPriv (privs : List Priv) :
    preorderList (privs.map renderPriv) = privs.map renderPriv := by
  induction privs with
  | nil => simp [preorderList]
  | cons pv pvs ih => simp [preorderList, renderPriv, preorder, ih]

theorem preorder_renderSO (so : SO) : preorder (renderSO so) = soNodes so := by
  simp [renderSO, preorder, soNodes, preorderList_map_capNode]

theorem preorder_renderMG (mg : MG) : preorder (renderMG mg) = mgNodes mg := by
  simp [renderMG, preorder, mgNodes, actorsElem, preorderList, preorderList_map_refNode]

theorem preorder_renderStory (st : StoryS) : preorder (renderStory st) = storyNodes st := by
  have hmgs : preorderList (st.mgs.map renderMG) = st.mgs.flatMap mgNodes := by
    rw [preorderList_eq_flatMap, List.flatMap_map]
    exact List.flatMap_congr (fun mg _ => preorder_renderMG mg)
  simp [renderStory, preorder, storyNodes, actElem, preorderList, hmgs]

theorem localname_lit_SO : localname "ScenarioObject" = "ScenarioObject" := rfl

theorem localname_lit_Private : localname "Private" = "Private" := rfl

theorem localname_lit_MG : localname "ManeuverGroup" = "ManeuverGroup" := rfl

theorem localname_lit_Story : localname "Story" = "Story" := rfl

theorem preorder_toXElem (d : SDoc) :
    preorder (toXElem d) =
      toXElem d :: entElem d.sos :: d.sos.flatMap soNodes
        ++ sbElem d.privates d.stories :: initElem d.privates :: actionsElem d.privates
        :: d.privates.map renderPriv ++ d.stories.flatMap storyNodes := by
  have hsos : preorderList (d.sos.map renderSO) = d.sos.flatMap soNodes := by
    rw [preorderList_eq_flatMap, List.flatMap_map]
    exact List.flatMap_congr (fun so _ => preorder_renderSO so)
  have hsts : preorderList (d.stories.map renderStory) = d.stories.flatMap storyNodes := by
    rw [preorderList_eq_flatMap, List.flatMap_map]
    exact List.flatMap_congr (fun st _ => preorder_renderStory st)
  simp only [toXElem_eq, preorder, preorderList, entElem, sbElem, initElem, actionsElem,
    preorderList_append, preorderList_map_renderPriv, hsos, hsts, List.append_nil]
  simp

theorem findall_local_def (root : XElem) (T : String) :
    findall_local root T = (preorder root).filter (tagFilter T) := rfl

theorem filter_capNodes_nil (T : String) (caps : List String)
    (h : ∀ c ∈ caps, localname c ≠ T) :
    (caps.map capNode).filter (tagFilter T) = [] := by
  induction caps with
  | nil => simp
  | cons c cs ih =>
    have hc : (localname c == T) = false := by
      simp [h c (List.mem_cons_self c cs)]
    simp only [List.map_cons, List.filter_cons, tagFilter, capNode, XElem.tag, hc]
    simpa using ih (fun x hx => h x (List.mem_cons_of_mem c hx))

theorem filter_soNodes_self (sos : List SO)
    (hcaps : ∀ so ∈ sos, ∀ c ∈ so.caps, localname c ≠ "ScenarioObject") :
    (sos.flatMap soNodes).filter (tagFilter "ScenarioObject") = sos.map renderSO := by
  induction sos with
  | nil => simp
  | cons so rest ih =>
    simp only [List.flatMap_cons, List.filter_append, soNodes, List.filter_cons]
    rw [show tagFilter "ScenarioObject" (renderSO so) = true from rfl]
    rw [filter_capNodes_nil _ _ (hcaps so (List.mem_cons_self so rest))]
    rw [ih (fun x hx => hcaps x (List.mem_cons_of_mem so hx))]
    simp

theorem filter_soNodes_nil (T : String) (sos : List SO)
    (hT : ("ScenarioObject" == T) = false)
    (hcaps : ∀ so ∈ sos, ∀ c ∈ so.caps, localname c ≠ T) :
    (sos.flatMap soNodes).filter (tagFilter T) = [] := by
  induction sos with
  | nil => simp
  | cons so rest ih =>
    simp only [List.flatMap_cons, List.filter_append, soNodes, List.filter_cons]
    rw [show tagFilter T (renderSO so) = ("ScenarioObject" == T) from rfl, hT]
    rw [filter_capNodes_nil _ _ (hcaps so (List.mem_cons_self so rest))]
    simpa using ih (fun x hx => hcaps x (List.mem_cons_of_mem so hx))

theorem filter_privs_self (privs : List Priv) :
    (privs.map renderPriv).filter (tagFilter "Private") = privs.map renderPriv := by
  induction privs with
  | nil => simp
  | cons pv rest ih =>
    simp only [List.map_cons, List.filter_cons]
    rw [show tagFilter "Private" (renderPriv pv) = true from rfl]
    rw [ih]
    simp

theorem filter_privs_nil (T : String) (privs : List Priv)
    (hT : ("Private" == T) = false) :
    (privs.map renderPriv).filter (tagFilter T) = [] := by
  induction privs with
  | nil => simp
  | cons pv rest ih =>
    simp only [List.map_cons, List.filter_cons]
    rw [show tagFilter T (renderPriv pv) = ("Private" == T) from rfl, hT]
    exact ih

theorem filter_refNodes_nil (T : String) (rs : List String)
    (hT : ("EntityRef" == T) = false) :
    (rs.map refNode).filter (tagFilter T) = [] := by
  induction rs with
  | nil => simp
  | cons r rest ih =>
    simp only [List.map_cons, List.filter_cons]
    rw [show tagFilter T (refNode r) = ("EntityRef" == T) from rfl, hT]
    exact ih

theorem filter_mgNodes_nil (T : String) (mgs : List MG)
    (hMG : ("ManeuverGroup" == T) = false)
    (hActors : ("Actors" == T) = false)
    (hER : ("EntityRef" == T) = false) :
    (mgs.flatMap mgNodes).filter (tagFilter T) = [] := by
  induction mgs with
  | nil => simp
  | cons mg rest ih =>
    simp only [List.flatMap_cons, List.filter_append, mgNodes, List.filter_cons]
    rw [show tagFilter T (renderMG mg) = ("ManeuverGroup" == T) from rfl, hMG]
    rw [show tagFilter T (actorsElem mg) = ("Actors" == T) from rfl, hActors]
    rw [filter_refNodes_nil T mg.actors hER]
    simpa using ih

theorem filter_mgNodes_self (mgs : List MG) :
    (mgs.flatMap mgNodes).filter (tagFilter "ManeuverGroup") = mgs.map renderMG := by
  induction mgs with
  | nil => simp
  | cons mg rest ih =>
    simp only [List.flatMap_cons, List.filter_append, mgNodes, List.filter_cons]
    rw [show tagFilter "ManeuverGroup" (renderMG mg) = true from rfl]
    rw [show tagFilter "ManeuverGroup" (actorsElem mg) = false from rfl]
    rw [filter_refNodes_nil "ManeuverGroup" mg.actors (by rfl)]
    simpa using ih

theorem filter_storyNodes_nil (T : String) (sts : List StoryS)
    (hStory : ("Story" == T) = false)
    (hAct : ("Act" == T) = false)
    (hMG : ("ManeuverGroup" == T) = false)
    (hActors : ("Actors" == T) = false)
    (hER : ("EntityRef" == T) = false) :
    (sts.flatMap storyNodes).filter (tagFilter T) = [] := by
  induction sts with
  | nil => simp
  | cons st rest ih =>
    simp only [List.flatMap_cons, List.filter_append, storyNodes, List.filter_cons]
    rw [show tagFilter T (renderStory st) = ("Story" == T) from rfl, hStory]
    rw [show tagFilter T (actElem st) = ("Act" == T) from rfl, hAct]
    rw [filter_mgNodes_nil T st.mgs hMG hActors hER]
    simpa using ih

theorem filter_storyNodes_self (sts : List StoryS) :
    (sts.flatMap storyNodes).filter (tagFilter "Story") = sts.map renderStory := by
  induction sts with
  | nil => simp
  | cons st rest ih =>
    simp only [List.flatMap_cons, List.filter_append, storyNodes, List.filter_cons]
    rw [show tagFilter "Story" (renderStory st) = true from rfl]
    rw [show tagFilter "Story" (actElem st) = false from rfl]
    rw [filter_mgNodes_nil "Story" st.mgs (by rfl) (by rfl) (by rfl)]
    rw [ih]
    simp

theorem filter_storyNodes_mg (sts : List StoryS) :
    (sts.flatMap storyNodes).filter (tagFilter "ManeuverGroup")
      = sts.flatMap (fun st => st.mgs.map renderMG) := by
  induction sts with
  | nil => simp
  | cons st rest ih =>
    simp only [List.flatMap_cons, List.filter_append, storyNodes, List.filter_cons]
    rw [show tagFilter "ManeuverGroup" (renderStory st) = false from rfl]
    rw [show tagFilter "ManeuverGroup" (actElem st) = false from rfl]
    rw [filter_mgNodes_self st.mgs]
    simpa using ih

theorem capsOk_tag {sos : List SO} (h : CapsOk sos) (T : String)
    (hT : T ∈ reservedTags) : ∀ so ∈ sos, ∀ c ∈ so.caps, localname c ≠ T := by
  intro so hso c hc he
  exact h so hso c hc (he ▸ hT)

theorem findall_SO_toXElem (d : SDoc) (h : CapsOk d.sos) :
    findall_local (toXElem d) "ScenarioObject" = d.sos.map renderSO := by
  rw [findall_local_def, preorder_toXElem]
  simp only [List.filter_append, List.filter_cons]
  rw [show tagFilter "ScenarioObject" (toXElem d) = false from rfl]
  rw [show tagFilter "ScenarioObject" (entElem d.sos) = false from rfl]
  rw [show tagFilter "ScenarioObject" (sbElem d.privates d.stories) = false from rfl]
  rw [show tagFilter "ScenarioObject" (initElem d.privates) = false from rfl]
  rw [show tagFilter "ScenarioObject" (actionsElem d.privates) = false from rfl]
  rw [filter_soNodes_self d.sos (capsOk_tag h _ (by simp [reservedTags]))]
  rw [filter_privs_nil _ _ (by rfl)]
  rw [filter_storyNodes_nil _ _ (by rfl) (by rfl) (by rfl) (by rfl) (by rfl)]
  simp

theorem findall_Story_toXElem (d : SDoc) (h : CapsOk d.sos) :
    findall_local (toXElem d) "Story" = d.stories.map renderStory := by
  rw [findall_local_def, preorder_toXElem]
  simp only [List.filter_append, List.filter_cons]
  rw [show tagFilter "Story" (toXElem d) = false from rfl]
  rw [show tagFilter "Story" (entElem d.sos) = false from rfl]
  rw [show tagFilter "Story" (sbElem d.privates d.stories) = false from rfl]
  rw [show tagFilter "Story" (initElem d.privates) = false from rfl]
  rw [show tagFilter "Story" (actionsElem d.privates) = false from rfl]
  rw [filter_soNodes_nil _ _ (by rfl) (capsOk_tag h _ (by simp [reservedTags]))]
  rw [filter_privs_nil _ _ (by rfl)]
  rw [filter_storyNodes_self d.stories]
  simp

theorem findall_Private_toXElem (d : SDoc) (h : CapsOk d.sos) :
    findall_local (toXElem d) "Private" = d.privates.map renderPriv := by
  rw [findall_local_def, preorder_toXElem]
  simp only [List.filter_append, List.filter_cons]
  rw [show tagFilter "Private" (toXElem d) = false from rfl]
  rw [show tagFilter "Private" (entElem d.sos) = false from rfl]
  rw [show tagFilter "Private" (sbElem d.privates d.stories) = false from rfl]
  rw [show tagFilter "Private" (initElem d.privates) = false from rfl]
  rw [show tagFilter "Private" (actionsElem d.privates) = false from rfl]
  rw [filter_soNodes_nil _ _ (by rfl) (capsOk_tag h _ (by simp [reservedTags]))]
  rw [filter_privs_self d.privates]
  rw [filter_storyNodes_nil _ _ (by rfl) (by rfl) (by rfl) (by rfl) (by rfl)]
  simp

/-! ## pruneIf lemmas -/

mutual
theorem pruneIf_eq_self (p : XElem → Bool) :
    (e : XElem) → (∀ n ∈ preorder e, p n = false) → pruneIf p e = e
  | .mk i t a cs, h => by
    simp only [pruneIf]
    rw [pruneList_eq_self p cs (fun n hn => h n (by simp [preorder, hn]))]

theorem pruneList_eq_self (p : XElem → Bool) :
    (l : List XElem) → (∀ n ∈ preorderList l, p n = false) → pruneList p l = l
  | [], _ => rfl
  | c :: cs, h => by
    have hmem : ∀ n ∈ preorder c, n ∈ preorderList (c :: cs) := by
      intro n hn; simp [preorderList, hn]
    have hc : p c = false := by
      apply h
      apply hmem
      cases c with
      | mk i t a cs' => simp [preorder]
    simp only [pruneList, hc, Bool.false_eq_true, if_false]
    rw [pruneIf_eq_self p c (fun n hn => h n (hmem n hn))]
    rw [pruneList_eq_self p cs (fun n hn => h n (by simp [preorderList, hn]))]
end

theorem mem_soNodes {n : XElem} {so : SO} (h : n ∈ soNodes so) :
    n = renderSO so ∨ ∃ c ∈ so.caps, n = capNode c := by
  simp only [soNodes, List.mem_cons, List.mem_map] at h
  rcases h with h | ⟨c, hc, rfl⟩
  · exact Or.inl h
  · exact Or.inr ⟨c, hc, rfl⟩

theorem mem_mgNodes {n : XElem} {mg : MG} (h : n ∈ mgNodes mg) :
    n = renderMG mg ∨ n = actorsElem mg ∨ ∃ r ∈ mg.actors, n = refNode r := by
  simp only [mgNodes, List.mem_cons, List.mem_map] at h
  rcases h with h | h | ⟨r, hr, rfl⟩
  · exact Or.inl h
  · exact Or.inr (Or.inl h)
  · exact Or.inr (Or.inr ⟨r, hr, rfl⟩)

theorem mem_storyNodes {n : XElem} {st : StoryS} (h : n ∈ storyNodes st) :
    n = renderStory st ∨ n = actElem st ∨ ∃ mg ∈ st.mgs, n ∈ mgNodes mg := by
  simp only [storyNodes, List.mem_cons, List.mem_flatMap] at h
  rcases h with h | h | ⟨mg, hmg, hn⟩
  · exact Or.inl h
  · exact Or.inr (Or.inl h)
  · exact Or.inr (Or.inr ⟨mg, hmg, hn⟩)

/-! ## Attribute and child bridges for rendered elements -/

theorem renderSO_nid (so : SO) : (renderSO so).nid = so.nid := rfl

theorem renderPriv_nid (pv : Priv) : (renderPriv pv).nid = pv.nid := rfl

theorem renderMG_nid (mg : MG) : (renderMG mg).nid = mg.nid := rfl

theorem renderStory_nid (st : StoryS) : (renderStory st).nid = st.nid := rfl

theorem getAttr_renderSO_name (so : SO) : getAttr (renderSO so) "name" = so.name := by
  cases h : so.name <;> simp [getAttr, renderSO, h, List.lookup]

theorem getAttr_renderPriv_ref (pv : Priv) :
    getAttr (renderPriv pv) "entityRef" = pv.entityRef := by
  cases h : pv.entityRef <;> simp [getAttr, renderPriv, h, List.lookup]

theorem any_map_fn {α β : Type} (l : List α) (f : α → β) (p : β → Bool) :
    (l.map f).any p = l.any (fun a => p (f a)) := by
  induction l with
  | nil => rfl
  | cons a as ih => simp [ih]

theorem any_fn_congr {α : Type} {p q : α → Bool} (l : List α)
    (h : ∀ a ∈ l, p a = q a) : l.any p = l.any q := by
  induction l with
  | nil => rfl
  | cons a as ih =>
    simp only [List.any_cons, h a (List.mem_cons_self a as)]
    rw [ih (fun x hx => h x (List.mem_cons_of_mem a hx))]

theorem hasChildLocal_renderSO (so : SO) (c : String) :
    hasChildLocal (renderSO so) c = so.caps.any (fun x => localname x == c) := by
  rw [hasChildLocal, show (renderSO so).children = so.caps.map capNode from rfl,
    any_map_fn]
  exact any_fn_congr so.caps (fun x _ => rfl)

theorem beq_comm_str (s r : String) : (s == r) = (r == s) := by
  by_cases h : s = r
  · simp [h]
  · simp [beq_eq_false_iff_ne, h, Ne.symm h]

theorem contains_eq_any (l : List String) (s : String) :
    l.contains s = l.any (fun r => s == r) := by
  induction l with
  | nil => rfl
  | cons a as ih =>
    cases h : (s == a) <;> simp [List.contains, List.elem, h] <;>
      simpa [List.contains] using ih

theorem mg_refs_renderMG (mg : MG) (s : String) :
    mg_refs_second_vehicle (renderMG mg) s = mg.actors.contains s := by
  have hpre := preorder_renderMG mg
  rw [mg_refs_second_vehicle, hpre]
  have h1 : (localname (renderMG mg).tag == "EntityRef") = false := rfl
  have h2 : (localname (actorsElem mg).tag == "EntityRef") = false := rfl
  simp only [mgNodes, List.any_cons, h1, h2, Bool.false_and, Bool.false_or, any_map_fn]
  have hr : ∀ r ∈ mg.actors,
      ((localname (refNode r).tag == "EntityRef") &&
        (getAttr (refNode r) "entityRef" == some s)) = (s == r) := by
    intro r _
    rw [show (localname (refNode r).tag == "EntityRef") = true from rfl,
      show getAttr (refNode r) "entityRef" = some r from rfl, Bool.true_and]
    rw [show ((some r == some s) = (r == s)) from by simp, beq_comm_str]
  rw [any_fn_congr mg.actors hr, ← contains_eq_any]

theorem preorder_sbElem (privs : List Priv) (sts : List StoryS) :
    preorder (sbElem privs sts) =
      sbElem privs sts :: initElem privs :: actionsElem privs
        :: privs.map renderPriv ++ sts.flatMap storyNodes := by
  have hsts : preorderList (sts.map renderStory) = sts.flatMap storyNodes := by
    rw [preorderList_eq_flatMap, List.flatMap_map]
    exact List.flatMap_congr (fun st _ => preorder_renderStory st)
  simp [sbElem, preorder, preorderList, initElem, actionsElem, preorderList_append,
    preorderList_map_renderPriv, hsts]

theorem pruneList_pair (p : XElem → Bool) (a b : XElem)
    (ha : p a = false) (hb : p b = false) :
    pruneList p [a, b] = [pruneIf p a, pruneIf p b] := by
  simp [pruneList, ha, hb]

theorem pruneList_capNodes (p : XElem → Bool) (caps : List String)
    (h : ∀ c ∈ caps, p (capNode c) = false) :
    pruneList p (caps.map capNode) = caps.map capNode := by
  induction caps with
  | nil => rfl
  | cons c cs ih =>
    simp only [List.map_cons, pruneList, h c (List.mem_cons_self c cs),
       Bool.false_eq_true, if_false]
    rw [show pruneIf p (capNode c) = capNode c from rfl]
    rw [ih (fun x hx => h x (List.mem_cons_of_mem c hx))]

theorem pruneIf_renderSO (p : XElem → Bool) (so : SO)
    (h : ∀ c ∈ so.caps, p (capNode c) = false) :
    pruneIf p (renderSO so) = renderSO so := by
  simp only [renderSO, pruneIf]
  rw [pruneList_capNodes p so.caps h]

theorem pruneList_sos_tag (p : XElem → Bool) (sos : List SO)
    (hso : ∀ so ∈ sos, p (renderSO so) = false)
    (hcap : ∀ so ∈ sos, ∀ c ∈ so.caps, p (capNode c) = false) :
    pruneList p (sos.map renderSO) = sos.map renderSO := by
  induction sos with
  | nil => rfl
  | cons so rest ih =>
    simp only [List.map_cons, pruneList, hso so (List.mem_cons_self so rest),
      Bool.false_eq_true, if_false]
    rw [pruneIf_renderSO p so (hcap so (List.mem_cons_self so rest))]
    rw [ih (fun x hx => hso x (List.mem_cons_of_mem so hx))
          (fun x hx => hcap x (List.mem_cons_of_mem so hx))]

theorem pruneList_sos_byId (i : Nat) (sos : List SO) (hi : 1 ≤ i) :
    pruneList (fun e => e.nid == i) (sos.map renderSO)
      = (sos.filter (fun so => !(so.nid == i))).map renderSO := by
  have hz : ∀ c : String, ((capNode c).nid == i) = false := by
    intro c
    have : (0 : Nat) ≠ i := by omega
    simpa [capNode, XElem.nid] using beq_eq_false_iff_ne.mpr this
  induction sos with
  | nil => rfl
  | cons so rest ih =>
    by_cases h : so.nid = i
    · have hb : (so.nid == i) = true := beq_iff_eq.mpr h
      simp only [List.map_cons, pruneList, List.filter_cons, renderSO_nid, hb,
        Bool.not_true, Bool.false_eq_true, if_false, if_true]
      exact ih
    · have hb : (so.nid == i) = false := beq_eq_false_iff_ne.mpr h
      simp only [List.map_cons, pruneList, List.filter_cons, renderSO_nid, hb,
        Bool.not_false, Bool.false_eq_true, if_false, if_true]
      rw [pruneIf_renderSO _ so (fun c _ => hz c), ih]

theorem pruneList_privs_filter (p : XElem → Bool) (privs : List Priv)
    (keep : Priv → Bool) (h : ∀ pv ∈ privs, p (renderPriv pv) = !keep pv) :
    pruneList p (privs.map renderPriv) = (privs.filter keep).map renderPriv := by
  induction privs with
  | nil => rfl
  | cons pv rest ih =>
    simp only [List.map_cons, pruneList, List.filter_cons,
      h pv (List.mem_cons_self pv rest)]
    cases hk : keep pv with
    | true =>
      simp only [Bool.not_true, Bool.false_eq_true, if_false, if_true]
      rw [show pruneIf p (renderPriv pv) = renderPriv pv from rfl]
      simp only [List.map_cons]
      rw [ih (fun x hx => h x (List.mem_cons_of_mem pv hx))]
    | false =>
      simp only [Bool.not_false, if_true, Bool.false_eq_true, if_false]
      rw [ih (fun x hx => h x (List.mem_cons_of_mem pv hx))]

theorem keepMGS_def (svn : Option String) (mg : MG) :
    keepMGS svn mg = match svn with
      | some s => s ≠ "" && mg.actors.contains s
      | none => false := rfl

theorem mgPred_renderMG (svn : Option String) (mg : MG) :
    mgPred svn (renderMG mg) = !keepMGS svn mg := by
  simp only [mgPred]
  rw [show (localname (renderMG mg).tag == "ManeuverGroup") = true from rfl,
    Bool.true_and]
  cases svn with
  | none => rfl
  | some s => simp [keepMGS, mg_refs_renderMG]

theorem pruneList_refNodes (p : XElem → Bool) (rs : List String)
    (h : ∀ r ∈ rs, p (refNode r) = false) :
    pruneList p (rs.map refNode) = rs.map refNode := by
  induction rs with
  | nil => rfl
  | cons r rest ih =>
    simp only [List.map_cons, pruneList, h r (List.mem_cons_self r rest),
      Bool.false_eq_true, if_false]
    rw [show pruneIf p (refNode r) = refNode r from rfl]
    rw [ih (fun x hx => h x (List.mem_cons_of_mem r hx))]

/-- `pruneIf` never removes the node it is applied to, so pruning a
rendered maneuver group with the pass-4 predicate leaves it unchanged
(its interior nodes are `Actors`/`EntityRef`, never `ManeuverGroup`). -/
theorem pruneIf_renderMG (svn : Option String) (mg : MG) :
    pruneIf (mgPred svn) (renderMG mg) = renderMG mg := by
  have ha : mgPred svn (XElem.mk 0 "Actors" [] (mg.actors.map refNode)) = false := by
    simp only [mgPred, XElem.tag]
    rw [show (localname "Actors" == "ManeuverGroup") = false from rfl]
    simp
  simp only [renderMG, pruneIf, pruneList, ha, Bool.false_eq_true, if_false]
  rw [pruneList_refNodes _ mg.actors (fun r _ => rfl)]

theorem pruneList_stories_noop (p : XElem → Bool) (sts : List StoryS)
    (h : ∀ st ∈ sts, ∀ n ∈ storyNodes st, p n = false) :
    pruneList p (sts.map renderStory) = sts.map renderStory := by
  induction sts with
  | nil => rfl
  | cons st rest ih =>
    have hhead : p (renderStory st) = false :=
      h st (List.mem_cons_self st rest) _ (by simp [storyNodes])
    simp only [List.map_cons, pruneList, hhead, Bool.false_eq_true, if_false]
    rw [pruneIf_eq_self p (renderStory st)
        (fun n hn => h st (List.mem_cons_self st rest) n ((preorder_renderStory st) ▸ hn))]
    rw [ih (fun x hx => h x (List.mem_cons_of_mem st hx))]

theorem pruneList_mgs_filter (svn : Option String) (mgs : List MG) :
    pruneList (mgPred svn) (mgs.map renderMG)
      = (mgs.filter (keepMGS svn)).map renderMG := by
  induction mgs with
  | nil => rfl
  | cons mg rest ih =>
    simp only [List.map_cons, pruneList, List.filter_cons, mgPred_renderMG]
    cases hk : keepMGS svn mg with
    | true =>
      simp only [Bool.not_true, Bool.false_eq_true, if_false, if_true, List.map_cons]
      rw [pruneIf_renderMG, ih]
    | false =>
      simp only [Bool.not_false, if_true, Bool.false_eq_true, if_false]
      exact ih

theorem pruneIf_renderStory_mg (svn : Option String) (st : StoryS) :
    pruneIf (mgPred svn) (renderStory st) = renderStory (mgFilterStory svn st) := by
  have ha : mgPred svn (actElem st) = false := by
    simp only [mgPred, actElem, XElem.tag]
    rw [show (localname "Act" == "ManeuverGroup") = false from rfl]
    simp
  simp only [renderStory, pruneIf, actElem, pruneList, ha, Bool.false_eq_true, if_false,
    mgFilterStory]
  rw [pruneList_mgs_filter]
  rfl

theorem pruneList_stories_mgfilter (svn : Option String) (sts : List StoryS) :
    pruneList (mgPred svn) (sts.map renderStory)
      = (sts.map (mgFilterStory svn)).map renderStory := by
  induction sts with
  | nil => rfl
  | cons st rest ih =>
    have hst : mgPred svn (renderStory st) = false := by
      simp only [mgPred, renderStory, XElem.tag]
      rw [show (localname "Story" == "ManeuverGroup") = false from rfl]
      simp
    simp only [List.map_cons, pruneList, hst, Bool.false_eq_true, if_false]
    rw [pruneIf_renderStory_mg, ih]

theorem storyPred_capNode (fid : Nat) (c : String)
    (hc : localname c ≠ "Story") : storyPred fid (capNode c) = false := by
  simp [storyPred, capNode, XElem.tag, hc]

theorem pruneIf_renderStory_keep (fid : Nat) (st : StoryS) (hk : st.nid = fid) :
    pruneIf (storyPred fid) (renderStory st) = renderStory st := by
  apply pruneIf_eq_self
  intro n hn
  rw [preorder_renderStory] at hn
  rcases mem_storyNodes hn with h | h | ⟨mg, _, hmg⟩
  · subst h
    simp only [storyPred, renderStory, XElem.tag, XElem.nid]
    rw [show (localname "Story" == "Story") = true from rfl, hk]
    simp
  · subst h
    rw [show storyPred fid (actElem st) = ((localname "Act" == "Story") && _) from rfl]
    rw [show (localname "Act" == "Story") = false from rfl]
    simp
  · rcases mem_mgNodes hmg with h | h | ⟨r, _, h⟩ <;> subst h
    · rw [show storyPred fid (renderMG mg)
          = ((localname "ManeuverGroup" == "Story") && _) from rfl]
      rw [show (localname "ManeuverGroup" == "Story") = false from rfl]
      simp
    · rw [show storyPred fid (actorsElem mg)
          = ((localname "Actors" == "Story") && _) from rfl]
      rw [show (localname "Actors" == "Story") = false from rfl]
      simp
    · rw [show storyPred fid (refNode r)
          = ((localname "EntityRef" == "Story") && _) from rfl]
      rw [show (localname "EntityRef" == "Story") = false from rfl]
      simp

theorem pruneList_stories_filter (fid : Nat) (sts : List StoryS) :
    pruneList (storyPred fid) (sts.map renderStory)
      = (sts.filter (fun st => st.nid == fid)).map renderStory := by
  induction sts with
  | nil => rfl
  | cons st rest ih =>
    have hpred : storyPred fid (renderStory st) = (st.nid != fid) := by
      simp only [storyPred, renderStory, XElem.tag, XElem.nid]
      rw [show (localname "Story" == "Story") = true from rfl]
      simp
    by_cases h : st.nid = fid
    · have hb : (st.nid != fid) = false := by simp [h]
      have hb2 : (st.nid == fid) = true := beq_iff_eq.mpr h
      simp only [List.map_cons, pruneList, List.filter_cons, hpred, hb, hb2,
        Bool.false_eq_true, if_false, if_true, List.map_cons]
      rw [pruneIf_renderStory_keep fid st h, ih]
    · have hb : (st.nid != fid) = true := by simp [h]
      have hb2 : (st.nid == fid) = false := beq_eq_false_iff_ne.mpr h
      simp only [List.map_cons, pruneList, List.filter_cons, hpred, hb, hb2,
        Bool.false_eq_true, if_false, if_true]
      exact ih

theorem mem_sbNodes {n : XElem} {privs : List Priv} {sts : List StoryS}
    (h : n ∈ preorder (sbElem privs sts)) :
    n = sbElem privs sts ∨ n = initElem privs ∨ n = actionsElem privs ∨
      (∃ pv ∈ privs, n = renderPriv pv) ∨ ∃ st ∈ sts, n ∈ storyNodes st := by
  rw [preorder_sbElem] at h
  simp only [List.cons_append, List.mem_cons, List.mem_append, List.mem_map,
    List.mem_flatMap] at h
  rcases h with h | h | h | h | h
  · exact Or.inl h
  · exact Or.inr (Or.inl h)
  · exact Or.inr (Or.inr (Or.inl h))
  · rcases h with ⟨pv, hpv, rfl⟩
    exact Or.inr (Or.inr (Or.inr (Or.inl ⟨pv, hpv, rfl⟩)))
  · rcases h with ⟨st, hst, hn⟩
    exact Or.inr (Or.inr (Or.inr (Or.inr ⟨st, hst, hn⟩)))

theorem filter_map_fn {α β : Type} (f : α → β) (p : β → Bool) (l : List α) :
    (l.map f).filter p = (l.filter (fun a => p (f a))).map f := by
  induction l with
  | nil => rfl
  | cons a as ih =>
    simp only [List.map_cons, List.filter_cons]
    cases h : p (f a) <;> simp [h, ih]

theorem filter_fn_congr {α : Type} {p q : α → Bool} (l : List α)
    (h : ∀ a ∈ l, p a = q a) : l.filter p = l.filter q := by
  induction l with
  | nil => rfl
  | cons a as ih =>
    simp only [List.filter_cons, h a (List.mem_cons_self a as)]
    rw [ih (fun x hx => h x (List.mem_cons_of_mem a hx))]

theorem getLast?_map_fn {α β : Type} (f : α → β) (l : List α) :
    (l.map f).getLast? = l.getLast?.map f := by
  induction l with
  | nil => rfl
  | cons a as ih =>
    cases as with
    | nil => rfl
    | cons b bs =>
      simp only [List.map_cons, List.getLast?_cons_cons] at *
      exact ih

theorem head?_map_fn {α β : Type} (f : α → β) (l : List α) :
    (l.map f).head? = l.head?.map f := by
  cases l <;> rfl

theorem foldl_fn_congr {α β : Type} {f g : β → α → β} (l : List α)
    (h : ∀ b, ∀ a ∈ l, f b a = g b a) (init : β) : l.foldl f init = l.foldl g init := by
  induction l generalizing init with
  | nil => rfl
  | cons a as ih =>
    simp only [List.foldl_cons, h init a (List.mem_cons_self a as)]
    exact ih (fun b x hx => h b x (List.mem_cons_of_mem a hx)) _

theorem removeById_toXElem (d : SDoc) (i : Nat) (hi : 1 ≤ i)
    (hpr : ∀ pv ∈ d.privates, pv.nid ≠ i)
    (hst : ∀ st ∈ d.stories, st.nid ≠ i)
    (hmg : ∀ st ∈ d.stories, ∀ mg ∈ st.mgs, mg.nid ≠ i) :
    removeById i (toXElem d)
      = toXElem { d with sos := d.sos.filter (fun so => !(so.nid == i)) } := by
  have hz : ((0 : Nat) == i) = false := beq_eq_false_iff_ne.mpr (by omega)
  have h1 : pruneIf (fun e => e.nid == i) (entElem d.sos)
      = entElem (d.sos.filter (fun so => !(so.nid == i))) := by
    simp only [entElem, pruneIf]
    rw [pruneList_sos_byId i d.sos hi]
  have h2 : pruneIf (fun e => e.nid == i) (sbElem d.privates d.stories)
      = sbElem d.privates d.stories := by
    apply pruneIf_eq_self
    intro n hn
    rcases mem_sbNodes hn with h | h | h | ⟨pv, hpv, h⟩ | ⟨st, hst', h⟩
    · subst h; exact hz
    · subst h; exact hz
    · subst h; exact hz
    · subst h
      simpa [renderPriv, XElem.nid] using beq_eq_false_iff_ne.mpr (hpr pv hpv)
    · rcases mem_storyNodes h with h' | h' | ⟨mg, hmg', h''⟩
      · subst h'
        simpa [renderStory, XElem.nid] using beq_eq_false_iff_ne.mpr (hst st hst')
      · subst h'; exact hz
      · rcases mem_mgNodes h'' with h3 | h3 | ⟨r, _, h3⟩ <;> subst h3
        · simpa [renderMG, XElem.nid] using beq_eq_false_iff_ne.mpr (hmg st hst' mg hmg')
        · exact hz
        · exact hz
  rw [removeById, toXElem_eq, toXElem_eq]
  simp only [pruneIf]
  rw [pruneList_pair _ _ _ hz hz, h1, h2]

theorem privPred_renderPriv (allowed : List String) (pv : Priv) :
    privPred allowed (renderPriv pv) = !keepPrivS allowed pv := by
  simp only [privPred, keepPrivS, getAttr_renderPriv_ref]
  rw [show (localname (renderPriv pv).tag == "Private") = true from rfl, Bool.true_and]

theorem privPred_capNode (allowed : List String) (c : String)
    (hc : localname c ≠ "Private") : privPred allowed (capNode c) = false := by
  simp only [privPred, capNode, XElem.tag, getAttr, XElem.attrs, List.lookup]
  simp [hc]

theorem pruneIf_privPred_toXElem (allowed : List String) (d : SDoc)
    (hcaps : CapsOk d.sos) :
    pruneIf (privPred allowed) (toXElem d)
      = toXElem { d with privates := d.privates.filter (keepPrivS allowed) } := by
  have h1 : pruneIf (privPred allowed) (entElem d.sos) = entElem d.sos := by
    simp only [entElem, pruneIf]
    rw [pruneList_sos_tag _ _ (fun so _ => rfl)
      (fun so hso c hc =>
        privPred_capNode allowed c
          (capsOk_tag hcaps "Private" (by simp [reservedTags]) so hso c hc))]
  have h2 : pruneIf (privPred allowed) (sbElem d.privates d.stories)
      = sbElem (d.privates.filter (keepPrivS allowed)) d.stories := by
    simp only [sbElem, initElem, actionsElem, pruneIf, pruneList]
    rw [show privPred allowed (XElem.mk 0 "Init" []
        [XElem.mk 0 "Actions" [] (d.privates.map renderPriv)]) = false from rfl]
    rw [show privPred allowed (XElem.mk 0 "Actions" []
        (d.privates.map renderPriv)) = false from rfl]
    simp only [Bool.false_eq_true, if_false, pruneIf, pruneList]
    rw [pruneList_privs_filter _ _ _ (fun pv _ => privPred_renderPriv allowed pv)]
    rw [pruneList_stories_noop _ _ (fun st _ n hn => by
      rcases mem_storyNodes hn with h | h | ⟨mg, _, h'⟩
      · subst h; rfl
      · subst h; rfl
      · rcases mem_mgNodes h' with h3 | h3 | ⟨r, _, h3⟩ <;> subst h3 <;> rfl)]
  rw [toXElem_eq, toXElem_eq]
  simp only [pruneIf]
  rw [pruneList_pair _ _ _ rfl rfl, h1, h2]

theorem pruneIf_mgPred_toXElem (svn : Option String) (d : SDoc)
    (hcaps : CapsOk d.sos) :
    pruneIf (mgPred svn) (toXElem d)
      = toXElem { d with stories := d.stories.map (mgFilterStory svn) } := by
  have hcap : ∀ so ∈ d.sos, ∀ c ∈ so.caps, mgPred svn (capNode c) = false := by
    intro so hso c hc
    have := capsOk_tag hcaps "ManeuverGroup" (by simp [reservedTags]) so hso c hc
    simp only [mgPred, capNode, XElem.tag]
    simp [this]
  have h1 : pruneIf (mgPred svn) (entElem d.sos) = entElem d.sos := by
    simp only [entElem, pruneIf]
    rw [pruneList_sos_tag _ _ (fun so _ => rfl) hcap]
  have h2 : pruneIf (mgPred svn) (sbElem d.privates d.stories)
      = sbElem d.privates (d.stories.map (mgFilterStory svn)) := by
    simp only [sbElem, initElem, actionsElem, pruneIf, pruneList]
    rw [show mgPred svn (XElem.mk 0 "Init" []
        [XElem.mk 0 "Actions" [] (d.privates.map renderPriv)]) = false from rfl]
    rw [show mgPred svn (XElem.mk 0 "Actions" []
        (d.privates.map renderPriv)) = false from rfl]
    simp only [Bool.false_eq_true, if_false, pruneIf, pruneList]
    rw [pruneList_privs_filter _ _ (fun _ => true) (fun pv _ => rfl)]
    rw [pruneList_stories_mgfilter]
    simp [List.filter_true]
  rw [toXElem_eq, toXElem_eq]
  simp only [pruneIf]
  rw [pruneList_pair _ _ _ rfl rfl, h1, h2]

theorem pruneIf_storyPred_toXElem (fid : Nat) (d : SDoc)
    (hcaps : CapsOk d.sos) :
    pruneIf (storyPred fid) (toXElem d)
      = toXElem { d with stories := d.stories.filter (fun st => st.nid == fid) } := by
  have hcap : ∀ so ∈ d.sos, ∀ c ∈ so.caps, storyPred fid (capNode c) = false := by
    intro so hso c hc
    exact storyPred_capNode fid c
      (capsOk_tag hcaps "Story" (by simp [reservedTags]) so hso c hc)
  have h1 : pruneIf (storyPred fid) (entElem d.sos) = entElem d.sos := by
    simp only [entElem, pruneIf]
    rw [pruneList_sos_tag _ _ (fun so _ => rfl) hcap]
  have h2 : pruneIf (storyPred fid) (sbElem d.privates d.stories)
      = sbElem d.privates (d.stories.filter (fun st => st.nid == fid)) := by
    simp only [sbElem, initElem, actionsElem, pruneIf, pruneList]
    rw [show storyPred fid (XElem.mk 0 "Init" []
        [XElem.mk 0 "Actions" [] (d.privates.map renderPriv)]) = false from rfl]
    rw [show storyPred fid (XElem.mk 0 "Actions" []
        (d.privates.map renderPriv)) = false from rfl]
    simp only [Bool.false_eq_true, if_false, pruneIf, pruneList]
    rw [pruneList_privs_filter _ _ (fun _ => true) (fun pv _ => rfl)]
    rw [pruneList_stories_filter]
    simp [List.filter_true]
  rw [toXElem_eq, toXElem_eq]
  simp only [pruneIf]
  rw [pruneList_pair _ _ _ rfl rfl, h1, h2]

theorem findall_MG_toXElem (d : SDoc) (h : CapsOk d.sos) :
    findall_local (toXElem d) "ManeuverGroup"
      = d.stories.flatMap (fun st => st.mgs.map renderMG) := by
  rw [findall_local_def, preorder_toXElem]
  simp only [List.filter_append, List.filter_cons]
  rw [show tagFilter "ManeuverGroup" (toXElem d) = false from rfl]
  rw [show tagFilter "ManeuverGroup" (entElem d.sos) = false from rfl]
  rw [show tagFilter "ManeuverGroup" (sbElem d.privates d.stories) = false from rfl]
  rw [show tagFilter "ManeuverGroup" (initElem d.privates) = false from rfl]
  rw [show tagFilter "ManeuverGroup" (actionsElem d.privates) = false from rfl]
  rw [filter_soNodes_nil _ _ (by rfl) (capsOk_tag h _ (by simp [reservedTags]))]
  rw [filter_privs_nil _ _ (by rfl)]
  rw [filter_storyNodes_mg d.stories]
  simp

/-! ## The pass-1 fold on rendered documents -/

theorem filter_true_of {α : Type} (p : α → Bool) (l : List α)
    (h : ∀ a ∈ l, p a = true) : l.filter p = l := by
  induction l with
  | nil => rfl
  | cons a as ih =>
    simp only [List.filter_cons, h a (List.mem_cons_self a as), if_true]
    rw [ih (fun x hx => h x (List.mem_cons_of_mem a hx))]

theorem filter_false_of {α : Type} (p : α → Bool) (l : List α)
    (h : ∀ a ∈ l, p a = false) : l.filter p = [] := by
  induction l with
  | nil => rfl
  | cons a as ih =>
    simp only [List.filter_cons, h a (List.mem_cons_self a as), Bool.false_eq_true,
      if_false]
    exact ih (fun x hx => h x (List.mem_cons_of_mem a hx))

theorem filter_ne_middle (pre rest : List SO) (so : SO)
    (hnodup : ((pre ++ so :: rest).map SO.nid).Nodup) :
    (pre ++ so :: rest).filter (fun x => !(x.nid == so.nid)) = pre ++ rest := by
  rw [List.map_append, List.map_cons] at hnodup
  rw [List.nodup_append] at hnodup
  obtain ⟨hpre, hmid, hdisj⟩ := hnodup
  have hrest : so.nid ∉ rest.map SO.nid := (List.nodup_cons.mp hmid).1
  rw [List.filter_append, List.filter_cons]
  rw [show (!(so.nid == so.nid)) = false from by simp]
  simp only [Bool.false_eq_true, if_false]
  rw [filter_true_of _ pre (fun x hx => by
    have : x.nid ≠ so.nid := by
      intro he
      exact hdisj (List.mem_map_of_mem SO.nid hx) (by simp [he])
    simp [this])]
  rw [filter_true_of _ rest (fun x hx => by
    have : x.nid ≠ so.nid := by
      intro he
      exact hrest (he ▸ List.mem_map_of_mem SO.nid hx)
    simp [this])]

theorem filter_nid_head (st0 : StoryS) (rest : List StoryS)
    (hnodup : ((st0 :: rest).map StoryS.nid).Nodup) :
    (st0 :: rest).filter (fun st => st.nid == st0.nid) = [st0] := by
  have hrest : st0.nid ∉ rest.map StoryS.nid :=
    (List.nodup_cons.mp (by simpa using hnodup)).1
  rw [List.filter_cons]
  rw [show ((st0.nid == st0.nid)) = true from by simp]
  simp only [if_true]
  rw [filter_false_of _ rest (fun x hx => by
    have : x.nid ≠ st0.nid := by
      intro he
      exact hrest (he ▸ List.mem_map_of_mem StoryS.nid hx)
    simp [this])]

theorem name_to_obj_get_map (sos : List SO) (key : String) (hk : ¬(key = "")) :
    name_to_obj_get (sos.map renderSO) key
      = ((sos.filter (fun so => so.name == some key)).getLast?).map renderSO := by
  rw [name_to_obj_get, if_neg hk, filter_map_fn]
  rw [filter_fn_congr sos (fun so _ => by rw [getAttr_renderSO_name])]
  rw [getLast?_map_fn]

theorem cands_map (sos : List SO) :
    (sos.map renderSO).filter (fun so =>
        !(getAttr so "name" == some EGO_NAME) &&
        (hasChildLocal so "Vehicle" && !hasChildLocal so "Pedestrian"))
      = (sos.filter (fun so =>
          !(so.name == some EGO_NAME) && (so.isVehC && !so.isPedC))).map renderSO := by
  rw [filter_map_fn]
  congr 1
  apply filter_fn_congr
  intro so _
  rw [getAttr_renderSO_name, hasChildLocal_renderSO, hasChildLocal_renderSO,
    SO.isVehC, SO.isPedC]

theorem bind_map_name (o : Option SO) :
    (o.map renderSO).bind (fun so => getAttr so "name") = o.bind SO.name := by
  cases o <;> simp [getAttr_renderSO_name]

theorem allowed_eval (sos1 : List SO) (svn : Option String) :
    (EGO_NAME :: (match (match svn with
        | some s => if s ≠ "" then name_to_obj_get (sos1.map renderSO) s else none
        | none => none), svn with
      | some _, some s => if s ≠ "" then [s] else []
      | _, _ => []))
    = EGO_NAME :: (match svn with
      | some s => if s ≠ "" then
          (match (sos1.filter (fun so => so.name == some s)).getLast? with
            | some _ => [s] | none => [])
        else []
      | none => []) := by
  rcases svn with _ | s
  · rfl
  · dsimp only
    by_cases hs : s = ""
    · subst hs; simp
    · rw [if_pos hs, if_pos hs, name_to_obj_get_map sos1 s hs]
      rcases hlast : (sos1.filter (fun so => so.name == some s)).getLast? with _ | x
      · rw [hlast]; rfl
      · rw [hlast]
        simp [hs]

theorem pass1Step_renderSO (egoO svO : Option SO) (r : XElem) (so : SO) :
    pass1Step (egoO.map renderSO) (svO.map renderSO) r (renderSO so)
      = if pass1RemoveS (egoO.map SO.nid) (svO.map SO.nid) so
        then removeById so.nid r else r := by
  cases egoO with
  | none =>
    cases svO with
    | none =>
      simp only [pass1Step, pass1RemoveS, Option.map_none', renderSO_nid,
        hasChildLocal_renderSO, SO.isPedC, SO.isVehC]
      rcases Bool.eq_false_or_eq_true
          (so.caps.any (fun x => localname x == "Pedestrian")) with hP | hP <;>
        rcases Bool.eq_false_or_eq_true
          (so.caps.any (fun x => localname x == "Vehicle")) with hV | hV <;>
        simp [hP, hV]
    | some sv =>
      simp only [pass1Step, pass1RemoveS, Option.map_none', Option.map_some',
        renderSO_nid, hasChildLocal_renderSO, SO.isPedC, SO.isVehC]
      rcases Bool.eq_false_or_eq_true
          (so.caps.any (fun x => localname x == "Pedestrian")) with hP | hP <;>
        rcases Bool.eq_false_or_eq_true
          (so.caps.any (fun x => localname x == "Vehicle")) with hV | hV <;>
        rcases Bool.eq_false_or_eq_true (so.nid != sv.nid) with hM | hM <;>
        simp [hP, hV, hM]
  | some e =>
    cases svO with
    | none =>
      simp only [pass1Step, pass1RemoveS, Option.map_none', Option.map_some',
        renderSO_nid, hasChildLocal_renderSO, SO.isPedC, SO.isVehC]
      rcases Bool.eq_false_or_eq_true (so.nid == e.nid) with hA | hA <;>
        rcases Bool.eq_false_or_eq_true
          (so.caps.any (fun x => localname x == "Pedestrian")) with hP | hP <;>
        rcases Bool.eq_false_or_eq_true
          (so.caps.any (fun x => localname x == "Vehicle")) with hV | hV <;>
        simp [hA, hP, hV]
    | some sv =>
      simp only [pass1Step, pass1RemoveS, Option.map_some', renderSO_nid,
        hasChildLocal_renderSO, SO.isPedC, SO.isVehC]
      rcases Bool.eq_false_or_eq_true (so.nid == e.nid) with hA | hA <;>
        rcases Bool.eq_false_or_eq_true
          (so.caps.any (fun x => localname x == "Pedestrian")) with hP | hP <;>
        rcases Bool.eq_false_or_eq_true
          (so.caps.any (fun x => localname x == "Vehicle")) with hV | hV <;>
        rcases Bool.eq_false_or_eq_true (so.nid != sv.nid) with hM | hM <;>
        simp [hA, hP, hV, hM]

theorem pass1_fold (c : SO → Bool) (privs : List Priv) (sts : List StoryS) :
    ∀ (post pre : List SO),
      (∀ so ∈ pre ++ post, 1 ≤ so.nid) →
      (((pre ++ post).map SO.nid).Nodup) →
      (∀ so ∈ pre ++ post, ∀ pv ∈ privs, pv.nid ≠ so.nid) →
      (∀ so ∈ pre ++ post, ∀ st ∈ sts, st.nid ≠ so.nid) →
      (∀ so ∈ pre ++ post, ∀ st ∈ sts, ∀ mg ∈ st.mgs, mg.nid ≠ so.nid) →
      post.foldl (fun r so => if c so then removeById so.nid r else r)
          (toXElem ⟨pre ++ post, privs, sts⟩)
        = toXElem ⟨pre ++ post.filter (fun so => !c so), privs, sts⟩ := by
  intro post
  induction post with
  | nil =>
    intro pre _ _ _ _ _
    simp
  | cons so rest ih =>
    intro pre hpos hnodup hpr hst hmg
    have hmemso : so ∈ pre ++ so :: rest := by simp
    simp only [List.foldl_cons]
    cases hc : c so with
    | true =>
      rw [if_pos rfl]
      rw [removeById_toXElem ⟨pre ++ so :: rest, privs, sts⟩ so.nid (hpos so hmemso)
          (fun pv hpv => hpr so hmemso pv hpv)
          (fun st hst' => hst so hmemso st hst')
          (fun st hst' mg hmg' => hmg so hmemso st hst' mg hmg')]
      have hfil : (pre ++ so :: rest).filter (fun x => !(x.nid == so.nid)) = pre ++ rest :=
        filter_ne_middle pre rest so hnodup
      simp only [hfil]
      have hsub : (pre ++ rest).Sublist (pre ++ so :: rest) :=
        List.Sublist.append_left (List.sublist_cons_of_sublist so (List.Sublist.refl rest)) pre
      rw [ih pre (fun x hx => hpos x (hsub.mem hx))
          ((hsub.map SO.nid).nodup hnodup)
          (fun x hx => hpr x (hsub.mem hx))
          (fun x hx => hst x (hsub.mem hx))
          (fun x hx => hmg x (hsub.mem hx))]
      rw [List.filter_cons]
      simp [hc]
    | false =>
      rw [if_neg (by simp)]
      have heq : pre ++ so :: rest = (pre ++ [so]) ++ rest := by simp
      rw [show (toXElem ⟨pre ++ so :: rest, privs, sts⟩)
          = toXElem ⟨(pre ++ [so]) ++ rest, privs, sts⟩ from by rw [← heq]]
      rw [ih (pre ++ [so]) (heq ▸ hpos) (heq ▸ hnodup) (heq ▸ hpr) (heq ▸ hst)
          (heq ▸ hmg)]
      rw [List.filter_cons]
      simp [hc]

theorem pass1_fold_init (c : SO → Bool) (privs : List Priv) (sts : List StoryS)
    (sos : List SO)
    (hpos : ∀ so ∈ sos, 1 ≤ so.nid)
    (hnodup : (sos.map SO.nid).Nodup)
    (hpr : ∀ so ∈ sos, ∀ pv ∈ privs, pv.nid ≠ so.nid)
    (hst : ∀ so ∈ sos, ∀ st ∈ sts, st.nid ≠ so.nid)
    (hmg : ∀ so ∈ sos, ∀ st ∈ sts, ∀ mg ∈ st.mgs, mg.nid ≠ so.nid) :
    sos.foldl (fun r so => if c so then removeById so.nid r else r)
        (toXElem ⟨sos, privs, sts⟩)
      = toXElem ⟨sos.filter (fun so => !c so), privs, sts⟩ := by
  have := pass1_fold c privs sts sos [] (by simpa using hpos) (by simpa using hnodup)
    (by simpa using hpr) (by simpa using hst) (by simpa using hmg)
  simpa using this

/-- The structural commutation theorem: on a well-formed structured
document, the script's tree-level reduction computes exactly the
structured reduction `reduceS`. -/
theorem reduce_toXElem (d : SDoc) (hwf : d.WF) :
    reduce_xosc_tree (toXElem d) = toXElem (reduceS d) := by
  obtain ⟨sos, privs, sts⟩ := d
  have hcaps : CapsOk sos := fun so hso c hc => hwf.caps_ok so hso c hc
  have hid_pos := hwf.ids_pos
  have hid_nd := hwf.ids_nodup
  simp only [SDoc.ids] at hid_pos hid_nd
  rw [List.nodup_append] at hid_nd
  obtain ⟨hndABC, hndMg, hdisjABCD⟩ := hid_nd
  rw [List.nodup_append] at hndABC
  obtain ⟨hndAB, hndSt, hdisjABC⟩ := hndABC
  rw [List.nodup_append] at hndAB
  obtain ⟨hndS, hndP, hdisjAB⟩ := hndAB
  have hposS : ∀ so ∈ sos, 1 ≤ so.nid := fun so hso =>
    hid_pos so.nid (List.mem_append_left _ (List.mem_append_left _
      (List.mem_append_left _ (List.mem_map_of_mem SO.nid hso))))
  have hprS : ∀ so ∈ sos, ∀ pv ∈ privs, pv.nid ≠ so.nid := by
    intro so hso pv hpv he
    exact hdisjAB (List.mem_map_of_mem SO.nid hso)
      (he ▸ List.mem_map_of_mem Priv.nid hpv)
  have hstS : ∀ so ∈ sos, ∀ st ∈ sts, st.nid ≠ so.nid := by
    intro so hso st hst he
    exact hdisjABC (List.mem_append_left _ (List.mem_map_of_mem SO.nid hso))
      (he ▸ List.mem_map_of_mem StoryS.nid hst)
  have hmgS : ∀ so ∈ sos, ∀ st ∈ sts, ∀ mg ∈ st.mgs, mg.nid ≠ so.nid := by
    intro so hso st hst mg hmg he
    refine hdisjABCD
      (List.mem_append_left _ (List.mem_append_left _ (List.mem_map_of_mem SO.nid hso))) ?_
    exact he ▸ List.mem_flatMap.mpr ⟨st, hst, List.mem_map_of_mem MG.nid hmg⟩
  simp only [reduce_xosc_tree]
  rw [findall_SO_toXElem ⟨sos, privs, sts⟩ hcaps]
  dsimp only
  rw [name_to_obj_get_map sos EGO_NAME (by decide)]
  rw [show (sos.filter (fun so => so.name == some EGO_NAME)).getLast?
      = egoS ⟨sos, privs, sts⟩ from rfl]
  rw [cands_map sos]
  rw [show (sos.filter (fun so =>
      !(so.name == some EGO_NAME) && (so.isVehC && !so.isPedC)))
      = candsS ⟨sos, privs, sts⟩ from rfl]
  rw [head?_map_fn]
  rw [bind_map_name]
  rw [show ((candsS ⟨sos, privs, sts⟩).head?).bind SO.name
      = svNameS ⟨sos, privs, sts⟩ from rfl]
  rw [List.foldl_map]
  rw [foldl_fn_congr sos (fun r so _ =>
    pass1Step_renderSO (egoS ⟨sos, privs, sts⟩) ((candsS ⟨sos, privs, sts⟩).head?) r so)]
  rw [pass1_fold_init _ privs sts sos hposS hndS hprS hstS hmgS]
  rw [findall_SO_toXElem ⟨sos.filter (fun so =>
      !pass1RemoveS ((egoS ⟨sos, privs, sts⟩).map SO.nid)
        (((candsS ⟨sos, privs, sts⟩).head?).map SO.nid) so), privs, sts⟩
    (fun so hso c hc => hcaps so (List.mem_of_mem_filter hso) c hc)]
  dsimp only
  rw [allowed_eval]
  rw [pruneIf_privPred_toXElem _ ⟨sos.filter (fun so =>
      !pass1RemoveS ((egoS ⟨sos, privs, sts⟩).map SO.nid)
        (((candsS ⟨sos, privs, sts⟩).head?).map SO.nid) so), privs, sts⟩
    (fun so hso c hc => hcaps so (List.mem_of_mem_filter hso) c hc)]
  dsimp only
  rw [pruneIf_mgPred_toXElem (svNameS ⟨sos, privs, sts⟩) _
    (fun so hso c hc => hcaps so (List.mem_of_mem_filter hso) c hc)]
  dsimp only
  rw [findall_Story_toXElem _
    (fun so hso c hc => hcaps so (List.mem_of_mem_filter hso) c hc)]
  dsimp only
  cases sts with
  | nil =>
    dsimp only [List.map_nil]
    rfl
  | cons st rest =>
    cases rest with
    | nil =>
      dsimp only [List.map_cons, List.map_nil, List.isEmpty]
      rfl
    | cons st2 rest2 =>
      dsimp only [List.map_cons, List.isEmpty]
      rw [if_neg Bool.false_ne_true]
      rw [show (renderStory (mgFilterStory (svNameS ⟨sos, privs, st :: st2 :: rest2⟩) st)).nid
          = (mgFilterStory (svNameS ⟨sos, privs, st :: st2 :: rest2⟩) st).nid from rfl]
      rw [pruneIf_storyPred_toXElem _ _
        (fun so hso c hc => hcaps so (List.mem_of_mem_filter hso) c hc)]
      dsimp only
      have hnids : ((mgFilterStory (svNameS ⟨sos, privs, st :: st2 :: rest2⟩) st
          :: mgFilterStory (svNameS ⟨sos, privs, st :: st2 :: rest2⟩) st2
          :: (rest2.map (mgFilterStory (svNameS ⟨sos, privs, st :: st2 :: rest2⟩)))).map
            StoryS.nid).Nodup := by
        rw [show (mgFilterStory (svNameS ⟨sos, privs, st :: st2 :: rest2⟩) st
            :: mgFilterStory (svNameS ⟨sos, privs, st :: st2 :: rest2⟩) st2
            :: (rest2.map (mgFilterStory (svNameS ⟨sos, privs, st :: st2 :: rest2⟩))))
            = ((st :: st2 :: rest2).map
              (mgFilterStory (svNameS ⟨sos, privs, st :: st2 :: rest2⟩))) from rfl]
        rw [List.map_map]
        exact (by simpa using hndSt : ((st :: st2 :: rest2).map StoryS.nid).Nodup)
      rw [filter_nid_head
        (mgFilterStory (svNameS ⟨sos, privs, st :: st2 :: rest2⟩) st)
        (mgFilterStory (svNameS ⟨sos, privs, st :: st2 :: rest2⟩) st2
          :: rest2.map (mgFilterStory (svNameS ⟨sos, privs, st :: st2 :: rest2⟩)))
        hnids]
      rfl

/-! ## Helper lemmas for the claim statements -/

theorem countP_map_fn {α β : Type} (f : α → β) (p : β → Bool) (l : List α) :
    (l.map f).countP p = l.countP (fun a => p (f a)) := by
  induction l with
  | nil => rfl
  | cons a as ih => simp [List.countP_cons, ih]

theorem countP_fn_congr {α : Type} {p q : α → Bool} (l : List α)
    (h : ∀ a ∈ l, p a = q a) : l.countP p = l.countP q := by
  induction l with
  | nil => rfl
  | cons a as ih =>
    simp only [List.countP_cons, h a (List.mem_cons_self a as)]
    rw [ih (fun x hx => h x (List.mem_cons_of_mem a hx))]

theorem countP_filter_le {α : Type} (p q : α → Bool) (l : List α) :
    (l.filter q).countP p ≤ l.countP p := by
  induction l with
  | nil => simp
  | cons a as ih =>
    simp only [List.filter_cons, List.countP_cons]
    cases hq : q a
    · simp only [Bool.false_eq_true, if_false]
      exact ih.trans (Nat.le_add_right _ _)
    · simp only [if_true, List.countP_cons]
      exact Nat.add_le_add ih (Nat.le_refl _)

theorem contains_iff_mem (l : List String) (s : String) :
    l.contains s = true ↔ s ∈ l := by
  rw [contains_eq_any]
  simp only [List.any_eq_true, beq_iff_eq]
  constructor
  · rintro ⟨r, hr, rfl⟩; exact hr
  · intro h; exact ⟨s, h, rfl⟩

theorem mem_filter_getLast? {α : Type} (l : List α) (p : α → Bool) (e : α)
    (h : (l.filter p).getLast? = some e) : e ∈ l ∧ p e = true := by
  have hx : e ∈ (l.filter p).getLast? := by rw [Option.mem_def, h]
  rcases List.mem_getLast?_eq_getLast hx with ⟨hne, he⟩
  have hmem : e ∈ l.filter p := he ▸ List.getLast_mem hne
  exact ⟨List.mem_of_mem_filter hmem, List.of_mem_filter hmem⟩

/-- The kept secondary vehicle survives pass 1: the head of the candidate
list is never removed. -/
theorem sv_kept (d : SDoc) (c : SO) (hc : (candsS d).head? = some c) :
    c ∈ (reduceS d).sos := by
  have hcm : c ∈ candsS d := by
    cases hcs : candsS d with
    | nil => rw [hcs] at hc; cases hc
    | cons a rest =>
      rw [hcs] at hc
      simp only [List.head?_cons, Option.some.injEq] at hc
      rw [hc]
      exact List.mem_cons_self c rest
  have hcsos : c ∈ d.sos := List.mem_of_mem_filter hcm
  have hkeep : pass1RemoveS ((egoS d).map SO.nid) ((candsS d).head?.map SO.nid) c = false := by
    simp only [pass1RemoveS, hc, Option.map_some']
    simp
  apply List.mem_filter.mpr
  exact ⟨hcsos, by rw [hkeep]; rfl⟩

/-! ## Idempotence of the structured reduction -/

theorem filter_filter_fn {α : Type} (p q : α → Bool) (l : List α) :
    (l.filter p).filter q = l.filter (fun a => p a && q a) := by
  induction l with
  | nil => rfl
  | cons a as ih =>
    cases hp : p a
    · simp [List.filter_cons, hp, ih]
    · cases hq : q a
      · simp [List.filter_cons, hp, hq, ih]
      · simp [List.filter_cons, hp, hq, ih]

theorem head?_take1 {α : Type} (l : List α) : (l.take 1).head? = l.head? := by
  cases l <;> rfl

theorem head?_filter_strengthen {α : Type} (p q : α → Bool) (e : α)
    (hpe : p e = true) :
    ∀ (m : List α), (m.filter q).head? = some e →
      (m.filter (fun a => p a && q a)).head? = some e := by
  intro m
  induction m with
  | nil => intro h; cases h
  | cons a rest ih =>
    intro h
    simp only [List.filter_cons] at h ⊢
    cases hq : q a
    · rw [hq] at h
      simp only [Bool.false_eq_true, if_false] at h
      simp only [Bool.and_false, Bool.false_eq_true, if_false]
      exact ih h
    · rw [hq] at h
      simp only [if_true, List.head?_cons, Option.some.injEq] at h
      subst h
      simp only [Bool.and_true, hpe, if_true, List.head?_cons]

theorem filter_reverse_fn {α : Type} (p : α → Bool) (l : List α) :
    l.reverse.filter p = (l.filter p).reverse := by
  induction l with
  | nil => rfl
  | cons a as ih =>
    simp only [List.reverse_cons, List.filter_append, List.filter_cons, ih,
      List.filter_nil]
    cases hp : p a <;> simp

theorem getLast?_eq_head?_rev {α : Type} (l : List α) : l.getLast? = l.reverse.head? := by
  induction l with
  | nil => rfl
  | cons a as ih =>
    cases has : as with
    | nil => rfl
    | cons b bs =>
      rw [← has]
      rw [List.reverse_cons, List.head?_append]
      have hne : as.reverse.head?.isSome := by
        rw [has]
        simp [List.head?_isSome]
      cases hx : as.reverse.head? with
      | none => rw [hx] at hne; cases hne
      | some y =>
        simp only [hx, Option.or_some]
        rw [← hx, ← ih]
        rw [has]
        rw [List.getLast?_cons_cons]

theorem getLast?_filter_strengthen {α : Type} (p q : α → Bool) (e : α) (l : List α)
    (hpe : p e = true) (h : (l.filter q).getLast? = some e) :
    (l.filter (fun a => p a && q a)).getLast? = some e := by
  rw [getLast?_eq_head?_rev, ← filter_reverse_fn] at h ⊢
  exact head?_filter_strengthen p q e hpe l.reverse h

theorem filter_nid_unique (sos : List SO) (c : SO) (hc : c ∈ sos)
    (hnd : (sos.map SO.nid).Nodup) (p : SO → Bool) (hp : p c = true) :
    sos.filter (fun so => p so && (so.nid == c.nid)) = [c] := by
  induction sos with
  | nil => cases hc
  | cons a rest ih =>
    have hnd' : (rest.map SO.nid).Nodup := (List.nodup_cons.mp (by simpa using hnd)).2
    have hna : a.nid ∉ rest.map SO.nid := (List.nodup_cons.mp (by simpa using hnd)).1
    rcases List.mem_cons.mp hc with he | hcr
    · subst he
      simp only [List.filter_cons, hp, Bool.true_and]
      rw [show ((c.nid == c.nid)) = true from by simp]
      simp only [if_true]
      rw [filter_false_of _ rest (fun x hx => by
        have hxne : x.nid ≠ c.nid := by
          intro hne
          exact hna (hne ▸ List.mem_map_of_mem SO.nid hx)
        simp [hxne])]
    · have hane : a.nid ≠ c.nid := by
        intro he
        exact hna (he ▸ List.mem_map_of_mem SO.nid hcr)
      simp only [List.filter_cons]
      rw [show ((a.nid == c.nid)) = false from beq_eq_false_iff_ne.mpr hane]
      simp only [Bool.and_false, Bool.false_eq_true, if_false]
      exact ih hcr hnd'

theorem keep1_of_isEgo (d : SDoc) (e : SO) (he : egoS d = some e) :
    pass1RemoveS ((egoS d).map SO.nid) ((candsS d).head?.map SO.nid) e = false := by
  simp only [pass1RemoveS, he, Option.map_some']
  simp

/-- The last ego-named entity survives pass 1 and remains the last
ego-named entity. -/
theorem egoS_reduceS (d : SDoc) : egoS (reduceS d) = egoS d := by
  show ((d.sos.filter _).filter _).getLast? = _
  rw [filter_filter_fn]
  cases hx : egoS d with
  | none =>
    have hx' : d.sos.filter (fun so => so.name == some EGO_NAME) = [] := by
      rw [← List.getLast?_eq_none_iff]
      exact hx
    rw [List.getLast?_eq_none_iff]
    rw [filter_false_of]
    intro a ha
    have : (a.name == some EGO_NAME) = false := by
      by_cases h : a.name = some EGO_NAME
      · exfalso
        have hmf : a ∈ d.sos.filter (fun so => so.name == some EGO_NAME) :=
          List.mem_filter.mpr ⟨ha, by simp [h]⟩
        rw [hx'] at hmf
        cases hmf
      · simp [h]
    simp [this]
  | some e =>
    have hkeep := keep1_of_isEgo d e hx
    rw [hx] at hkeep
    exact getLast?_filter_strengthen _ _ e d.sos (by rw [hkeep]; rfl) hx

theorem candsS_reduceS (d : SDoc) (hnd : (d.sos.map SO.nid).Nodup) :
    candsS (reduceS d) = (candsS d).take 1 := by
  show ((d.sos.filter _).filter _) = _
  rw [filter_filter_fn]
  cases hc : candsS d with
  | nil =>
    have hc' : ∀ a ∈ d.sos,
        ¬((!(a.name == some EGO_NAME) && (a.isVehC && !a.isPedC)) = true) := by
      rw [← List.filter_eq_nil_iff]
      exact hc
    simp only [List.take_nil]
    rw [filter_false_of]
    intro a ha
    have hfa : (!(a.name == some EGO_NAME) && (a.isVehC && !a.isPedC)) = false := by
      have hx := hc' a ha
      revert hx
      cases (!(a.name == some EGO_NAME) && (a.isVehC && !a.isPedC)) <;> simp
    simp [hfa]
  | cons c cs =>
    have hcm : c ∈ d.sos.filter (fun so =>
        !(so.name == some EGO_NAME) && (so.isVehC && !so.isPedC)) := by
      rw [show d.sos.filter (fun so =>
          !(so.name == some EGO_NAME) && (so.isVehC && !so.isPedC)) = candsS d from rfl, hc]
      exact List.mem_cons_self c cs
    have hcsos : c ∈ d.sos := List.mem_of_mem_filter hcm
    have hcP : (!(c.name == some EGO_NAME) && (c.isVehC && !c.isPedC)) = true := by
      simpa using List.of_mem_filter hcm
    have hinj := List.inj_on_of_nodup_map hnd
    simp only [List.head?_cons, Option.map_some']
    have hswap : ∀ a ∈ d.sos,
        (!pass1RemoveS ((egoS d).map SO.nid) (some c.nid) a &&
          (!(a.name == some EGO_NAME) && (a.isVehC && !a.isPedC)))
        = ((!(a.name == some EGO_NAME) && (a.isVehC && !a.isPedC)) && (a.nid == c.nid)) := by
      intro a ha
      cases hP : (!(a.name == some EGO_NAME) && (a.isVehC && !a.isPedC))
      · simp [hP]
      · have hP2 := hP
        simp only [Bool.and_eq_true, Bool.not_eq_true'] at hP2
        obtain ⟨hnm, hveh, hped⟩ := hP2
        have hnotEgo :
            (match (egoS d).map SO.nid with
              | some e => a.nid == e | none => false) = false := by
          cases hx : egoS d with
          | none => simp
          | some e =>
            simp only [Option.map_some']
            obtain ⟨hem, hen⟩ := mem_filter_getLast? d.sos _ e hx
            have hae : a ≠ e := by
              intro hae
              rw [hae, hen] at hnm
              cases hnm
            have hnid : a.nid ≠ e.nid := fun hne => hae (hinj ha hem hne)
            simpa using beq_eq_false_iff_ne.mpr hnid
        simp only [pass1RemoveS, hnotEgo, hP]
        rw [show a.isVehC = true from hveh, show a.isPedC = false from hped]
        cases hnid : (a.nid == c.nid)
        · have hne := beq_eq_false_iff_ne.mp hnid
          simp [hnid, hne]
        · have heq := beq_iff_eq.mp hnid
          simp [hnid, heq]
    rw [show List.take 1 (c :: cs) = [c] from rfl]
    rw [filter_fn_congr d.sos hswap]
    exact filter_nid_unique d.sos c hcsos hnd _ hcP

theorem map_fn_congr {α β : Type} {f g : α → β} (l : List α)
    (h : ∀ a ∈ l, f a = g a) : l.map f = l.map g := by
  induction l with
  | nil => rfl
  | cons a as ih =>
    simp only [List.map_cons, h a (List.mem_cons_self a as)]
    rw [ih (fun x hx => h x (List.mem_cons_of_mem a hx))]

theorem map_take_fn {α β : Type} (f : α → β) (n : Nat) (l : List α) :
    (l.take n).map f = (l.map f).take n := by
  induction l generalizing n with
  | nil => simp
  | cons a as ih =>
    cases n with
    | zero => rfl
    | succ m => simp [List.take_succ_cons, ih]

theorem take1_take1 {α : Type} (l : List α) : (l.take 1).take 1 = l.take 1 := by
  cases l <;> rfl

/-- From the two lemmas above: the second pass recomputes the same ego and
secondary-vehicle data, so every filter of `reduceS` is idempotent. -/
theorem reduceS_idem (d : SDoc) (hnd : (d.sos.map SO.nid).Nodup) :
    reduceS (reduceS d) = reduceS d := by
  have hcands := candsS_reduceS d hnd
  have hego := egoS_reduceS d
  have hhead : (candsS (reduceS d)).head? = (candsS d).head? := by
    rw [hcands, head?_take1]
  have hsv : svNameS (reduceS d) = svNameS d := by
    rw [svNameS, svNameS, hhead]
  have hsosF : (reduceS d).sos.filter (fun so =>
      !pass1RemoveS ((egoS d).map SO.nid) ((candsS d).head?.map SO.nid) so)
      = (reduceS d).sos := by
    apply filter_true_of
    intro a ha
    have hmem2 : a ∈ d.sos.filter (fun so =>
      !pass1RemoveS ((egoS d).map SO.nid) ((candsS d).head?.map SO.nid) so) := ha
    simpa using List.of_mem_filter hmem2
  have hsos : (reduceS (reduceS d)).sos = (reduceS d).sos := by
    show (reduceS d).sos.filter _ = (reduceS d).sos
    rw [filter_fn_congr (reduceS d).sos (fun a _ => by rw [hego, hhead])]
    exact hsosF
  have hallow : allowedRefsS (reduceS d) = allowedRefsS d := by
    simp only [allowedRefsS, hsv, hego, hhead, hsosF]
    rfl
  have hpriv : (reduceS (reduceS d)).privates = (reduceS d).privates := by
    show (reduceS d).privates.filter _ = (reduceS d).privates
    rw [filter_fn_congr (reduceS d).privates (fun a _ => by rw [hallow])]
    apply filter_true_of
    intro a ha
    have hmem2 : a ∈ d.privates.filter (keepPrivS (allowedRefsS d)) := ha
    simpa using List.of_mem_filter hmem2
  have hmgF : ∀ st ∈ d.stories, mgFilterStory (svNameS d) (mgFilterStory (svNameS d) st)
      = mgFilterStory (svNameS d) st := by
    intro st _
    simp only [mgFilterStory]
    rw [filter_filter_fn]
    rw [filter_fn_congr st.mgs (fun mg _ => Bool.and_self _)]
  have hstories : (reduceS (reduceS d)).stories = (reduceS d).stories := by
    show ((reduceS d).stories.map (mgFilterStory (svNameS (reduceS d)))).take 1
        = (reduceS d).stories
    rw [hsv]
    show (((d.stories.map (mgFilterStory (svNameS d))).take 1).map
        (mgFilterStory (svNameS d))).take 1
        = (d.stories.map (mgFilterStory (svNameS d))).take 1
    rw [map_take_fn, List.map_map]
    rw [show (d.stories.map (mgFilterStory (svNameS d) ∘ mgFilterStory (svNameS d)))
        = d.stories.map (mgFilterStory (svNameS d)) from map_fn_congr d.stories hmgF]
    exact take1_take1 _
  have hexp : reduceS (reduceS d)
      = ⟨(reduceS (reduceS d)).sos, (reduceS (reduceS d)).privates,
          (reduceS (reduceS d)).stories⟩ := rfl
  rw [hexp, hsos, hpriv, hstories]

theorem sublist_flatMap_of_sublist {α β : Type} (f : α → List β) {l₁ l₂ : List α}
    (h : l₁.Sublist l₂) : (l₁.flatMap f).Sublist (l₂.flatMap f) := by
  induction h with
  | slnil => exact List.Sublist.refl _
  | cons a h ih =>
    simp only [List.flatMap_cons]
    exact ih.trans (List.sublist_append_right _ _)
  | cons₂ a h ih =>
    simp only [List.flatMap_cons]
    exact List.Sublist.append_left ih _

theorem flatMap_mono_pointwise {α β : Type} {f g : α → List β} (l : List α)
    (h : ∀ a ∈ l, (f a).Sublist (g a)) : (l.flatMap f).Sublist (l.flatMap g) := by
  induction l with
  | nil => exact List.Sublist.refl _
  | cons a as ih =>
    simp only [List.flatMap_cons]
    exact List.Sublist.append (h a (List.mem_cons_self a as))
      (ih (fun x hx => h x (List.mem_cons_of_mem a hx)))

theorem ids_reduceS_sublist (d : SDoc) : (reduceS d).ids.Sublist d.ids := by
  have h1 : ((reduceS d).sos.map SO.nid).Sublist (d.sos.map SO.nid) :=
    (List.filter_sublist _).map SO.nid
  have h2 : ((reduceS d).privates.map Priv.nid).Sublist (d.privates.map Priv.nid) :=
    (List.filter_sublist _).map Priv.nid
  have h3 : ((reduceS d).stories.map StoryS.nid).Sublist (d.stories.map StoryS.nid) := by
    show (((d.stories.map (mgFilterStory (svNameS d))).take 1).map StoryS.nid).Sublist _
    rw [map_take_fn, List.map_map]
    rw [show d.stories.map (StoryS.nid ∘ mgFilterStory (svNameS d))
        = d.stories.map StoryS.nid from map_fn_congr d.stories (fun st _ => rfl)]
    exact List.take_sublist 1 _
  have h4 : ((reduceS d).stories.flatMap (fun st => st.mgs.map MG.nid)).Sublist
      (d.stories.flatMap (fun st => st.mgs.map MG.nid)) := by
    show (((d.stories.map (mgFilterStory (svNameS d))).take 1).flatMap
        (fun st => st.mgs.map MG.nid)).Sublist _
    refine (sublist_flatMap_of_sublist _ (List.take_sublist 1 _)).trans ?_
    rw [List.flatMap_map]
    refine flatMap_mono_pointwise d.stories (fun st _ => ?_)
    show (((st.mgs.filter (keepMGS (svNameS d))).map MG.nid)).Sublist _
    exact (List.filter_sublist _).map MG.nid
  exact List.Sublist.append (List.Sublist.append (List.Sublist.append h1 h2) h3) h4

theorem WF_reduceS (d : SDoc) (h : d.WF) : (reduceS d).WF := by
  have hsub := ids_reduceS_sublist d
  exact ⟨fun i hi => h.ids_pos i (hsub.subset hi),
    h.ids_nodup.sublist hsub,
    fun so hso c hc => h.caps_ok so (List.mem_of_mem_filter hso) c hc⟩

theorem sos_nodup_of_WF (d : SDoc) (h : d.WF) : (d.sos.map SO.nid).Nodup := by
  have hnd := h.ids_nodup
  simp only [SDoc.ids] at hnd
  rw [List.nodup_append] at hnd
  obtain ⟨hABC, _, _⟩ := hnd
  rw [List.nodup_append] at hABC
  obtain ⟨hAB, _, _⟩ := hABC
  rw [List.nodup_append] at hAB
  exact hAB.1

/-- C5: on the concrete document with ego, two non-ego vehicles `v1`
(first in document order) and `v2`, a pedestrian `p1`, two stories, and
`Private`/`ManeuverGroup` entries referencing `v1` and `v2`,
`reduce_xosc_tree` returns exactly the document with entities
{ego, v1, p1}, `Private` entries only for ego and v1, only the
v1-referencing `ManeuverGroup`, and exactly the first story. -/
theorem C5_concrete_scenario :
    reduce_xosc_tree (toXElem C5doc) = toXElem C5expected ∧
    (findall_local (reduce_xosc_tree (toXElem C5doc)) "ScenarioObject").map
        (fun so => getAttr so "name")
      = [some "ego_vehicle", some "v1", some "p1"] ∧
    (findall_local (reduce_xosc_tree (toXElem C5doc)) "Private").map
        (fun pv => getAttr pv "entityRef")
      = [some "ego_vehicle", some "v1"] ∧
    (findall_local (reduce_xosc_tree (toXElem C5doc)) "ManeuverGroup").map XElem.nid
      = [9] ∧
    (findall_local (reduce_xosc_tree (toXElem C5doc)) "Story").map XElem.nid = [8] := by
  refine ⟨by decide, by decide, by decide, by decide, by decide⟩

/-- C3: reduction never removes the ego `ScenarioObject` or any
pedestrian-bearing `ScenarioObject`: on a well-formed document with
exactly one entity named `ego_vehicle` (the data-model invariant allows at
most one), the reduced tree has exactly one entity with that name, and
every pedestrian-bearing `ScenarioObject` of the document is present
unchanged after reduction. -/
theorem C3_ego_and_pedestrian_preservation (d : SDoc) (hwf : d.WF) :
    ((d.sos.countP (fun so => so.name == some EGO_NAME) = 1) →
      (findall_local (reduce_xosc_tree (toXElem d)) "ScenarioObject").countP
          (fun so => getAttr so "name" == some EGO_NAME) = 1) ∧
    (∀ so ∈ findall_local (toXElem d) "ScenarioObject",
        hasChildLocal so "Pedestrian" = true →
          so ∈ findall_local (reduce_xosc_tree (toXElem d)) "ScenarioObject") := by
  have hcaps : CapsOk d.sos := hwf.caps_ok
  have hcapsR : CapsOk (reduceS d).sos := fun so hso => hcaps so (List.mem_of_mem_filter hso)
  rw [reduce_toXElem d hwf, findall_SO_toXElem (reduceS d) hcapsR, findall_SO_toXElem d hcaps]
  constructor
  · intro hcount
    rw [countP_map_fn]
    rw [countP_fn_congr _ (fun so _ => by rw [getAttr_renderSO_name])]
    have hle : (reduceS d).sos.countP (fun so => so.name == some EGO_NAME) ≤ 1 := by
      refine le_trans ?_ (le_of_eq hcount)
      exact countP_filter_le _ _ d.sos
    have hpos : 0 < d.sos.countP (fun so => so.name == some EGO_NAME) := by
      rw [hcount]; exact Nat.zero_lt_one
    obtain ⟨e, he, hpe⟩ := List.countP_pos.mp hpos
    have hne : d.sos.filter (fun so => so.name == some EGO_NAME) ≠ [] :=
      List.ne_nil_of_mem (List.mem_filter.mpr ⟨he, hpe⟩)
    obtain ⟨e', he'⟩ : ∃ e', egoS d = some e' := by
      cases hx : egoS d with
      | none =>
        rw [egoS, List.getLast?_eq_none_iff] at hx
        exact absurd hx hne
      | some y => exact ⟨y, rfl⟩
    obtain ⟨he'm, hpe'⟩ := mem_filter_getLast? d.sos _ e' he'
    have hkeep : pass1RemoveS ((egoS d).map SO.nid) ((candsS d).head?.map SO.nid) e'
        = false := by
      simp only [pass1RemoveS, he', Option.map_some']
      simp
    have hmem' : e' ∈ (reduceS d).sos :=
      List.mem_filter.mpr ⟨he'm, by rw [hkeep]; rfl⟩
    have hge : 0 < (reduceS d).sos.countP (fun so => so.name == some EGO_NAME) :=
      List.countP_pos.mpr ⟨e', hmem', hpe'⟩
    omega
  · intro so hso hped
    obtain ⟨x, hx, rfl⟩ := List.mem_map.mp hso
    rw [hasChildLocal_renderSO] at hped
    refine List.mem_map_of_mem renderSO (List.mem_filter.mpr ⟨hx, ?_⟩)
    have hpedC : x.isPedC = true := hped
    simp [pass1RemoveS, hpedC]

/-- C3 witness: the preservation theorem applied to the concrete
four-entity document. -/
theorem C3_witness :
    C5doc.WF ∧
    (((C5doc.sos.countP (fun so => so.name == some EGO_NAME) = 1) →
      (findall_local (reduce_xosc_tree (toXElem C5doc)) "ScenarioObject").countP
          (fun so => getAttr so "name" == some EGO_NAME) = 1) ∧
    (∀ so ∈ findall_local (toXElem C5doc) "ScenarioObject",
        hasChildLocal so "Pedestrian" = true →
          so ∈ findall_local (reduce_xosc_tree (toXElem C5doc)) "ScenarioObject")) :=
  ⟨⟨by decide, by decide, by decide⟩,
    C3_ego_and_pedestrian_preservation C5doc ⟨by decide, by decide, by decide⟩⟩

/-- C1 counterexample: referential integrity fails as stated.  On the
concrete document with ego, v1, v2 and one ManeuverGroup whose actors
reference both v1 and v2, the group is retained (it references v1, the
kept secondary vehicle) while v2's `ScenarioObject` is removed, so the
retained group holds an actor `EntityRef` naming no retained entity. -/
theorem C1_counterexample :
    ((findall_local (reduce_xosc_tree (toXElem C1doc)) "ManeuverGroup").any (fun mg =>
        (preorder mg).any (fun er =>
          (localname er.tag == "EntityRef") && (getAttr er "entityRef" == some "v2")))
      && (findall_local (reduce_xosc_tree (toXElem C1doc)) "ManeuverGroup" ≠ [])
      && (findall_local (reduce_xosc_tree (toXElem C1doc)) "ScenarioObject").all (fun so =>
        !(getAttr so "name" == some "v2"))) = true := by decide

/-- C1 (amended): after reduction every retained `Private` references a
name in the allowed set (the reserved ego name or the kept secondary
vehicle's name — not necessarily a present entity), and every retained
`ManeuverGroup` contains at least one actor `EntityRef` naming the kept
secondary vehicle, which is itself present in the retained entity set;
other actor references of a retained group may dangle. -/
theorem C1_amended_referential (d : SDoc) (hwf : d.WF) :
    (∀ pv ∈ findall_local (reduce_xosc_tree (toXElem d)) "Private",
        ∃ s, getAttr pv "entityRef" = some s ∧ s ∈ allowedRefsS d) ∧
    (∀ mg ∈ findall_local (reduce_xosc_tree (toXElem d)) "ManeuverGroup",
        ∃ s, svNameS d = some s ∧ mg_refs_second_vehicle mg s = true ∧
          ∃ so ∈ findall_local (reduce_xosc_tree (toXElem d)) "ScenarioObject",
            getAttr so "name" = some s) := by
  have hcaps : CapsOk d.sos := hwf.caps_ok
  have hcapsR : CapsOk (reduceS d).sos := fun so hso => hcaps so (List.mem_of_mem_filter hso)
  rw [reduce_toXElem d hwf, findall_Private_toXElem _ hcapsR, findall_MG_toXElem _ hcapsR,
    findall_SO_toXElem _ hcapsR]
  constructor
  · intro pv hpv
    obtain ⟨x, hx, rfl⟩ := List.mem_map.mp hpv
    have hk : keepPrivS (allowedRefsS d) x = true := List.of_mem_filter hx
    rw [getAttr_renderPriv_ref]
    cases href : x.entityRef with
    | none =>
      rw [keepPrivS, href] at hk
      cases hk
    | some s =>
      refine ⟨s, rfl, (contains_iff_mem _ s).mp ?_⟩
      rw [keepPrivS, href] at hk
      exact hk
  · intro mg hmg
    obtain ⟨st, hst, hmg2⟩ := List.mem_flatMap.mp hmg
    obtain ⟨m, hm, rfl⟩ := List.mem_map.mp hmg2
    have hst' : st ∈ (d.stories.map (mgFilterStory (svNameS d))) :=
      (List.take_sublist 1 _).subset hst
    obtain ⟨st0, _, rfl⟩ := List.mem_map.mp hst'
    have hkm : keepMGS (svNameS d) m = true := List.of_mem_filter hm
    cases hsv : svNameS d with
    | none =>
      rw [hsv] at hkm
      simp only [keepMGS] at hkm
      exact absurd hkm (by simp)
    | some s =>
      rw [hsv] at hkm
      simp only [keepMGS, Bool.and_eq_true, decide_eq_true_eq] at hkm
      obtain ⟨hs, hcont⟩ := hkm
      refine ⟨s, rfl, ?_, ?_⟩
      · rw [mg_refs_renderMG]
        exact hcont
      · obtain ⟨c, hc, hcn⟩ : ∃ c, (candsS d).head? = some c ∧ c.name = some s := by
          rw [svNameS] at hsv
          cases hcx : (candsS d).head? with
          | none => rw [hcx] at hsv; cases hsv
          | some c =>
            rw [hcx] at hsv
            exact ⟨c, rfl, hsv⟩
        exact ⟨renderSO c, List.mem_map_of_mem renderSO (sv_kept d c hc),
          by rw [getAttr_renderSO_name, hcn]⟩

/-- C1 witness: the amended referential-integrity theorem applied to the
concrete four-entity document. -/
theorem C1_witness :
    C5doc.WF ∧
    ((∀ pv ∈ findall_local (reduce_xosc_tree (toXElem C5doc)) "Private",
        ∃ s, getAttr pv "entityRef" = some s ∧ s ∈ allowedRefsS C5doc) ∧
    (∀ mg ∈ findall_local (reduce_xosc_tree (toXElem C5doc)) "ManeuverGroup",
        ∃ s, svNameS C5doc = some s ∧ mg_refs_second_vehicle mg s = true ∧
          ∃ so ∈ findall_local (reduce_xosc_tree (toXElem C5doc)) "ScenarioObject",
            getAttr so "name" = some s)) :=
  ⟨⟨by decide, by decide, by decide⟩,
    C1_amended_referential C5doc ⟨by decide, by decide, by decide⟩⟩

/-- C4: reduction is idempotent on well-formed documents: applying
`reduce_xosc_tree` twice to a rendered document yields the same tree as
applying it once; the second pass removes nothing further. -/
theorem C4_reduce_idempotent (d : SDoc) (hwf : d.WF) :
    reduce_xosc_tree (reduce_xosc_tree (toXElem d)) = reduce_xosc_tree (toXElem d) := by
  rw [reduce_toXElem d hwf, reduce_toXElem (reduceS d) (WF_reduceS d hwf),
    reduceS_idem d (sos_nodup_of_WF d hwf)]

/-- C4 witness: idempotence at the concrete four-entity document. -/
theorem C4_witness :
    C5doc.WF ∧
    reduce_xosc_tree (reduce_xosc_tree (toXElem C5doc)) = reduce_xosc_tree (toXElem C5doc) :=
  ⟨⟨by decide, by decide, by decide⟩,
    C4_reduce_idempotent C5doc ⟨by decide, by decide, by decide⟩⟩

/-! ## Describer claims -/

theorem take_idem {α : Type} (n : Nat) (l : List α) :
    (l.take n).take n = l.take n := by
  induction n generalizing l with
  | zero => simp
  | succ k ih =>
    cases l with
    | nil => simp
    | cons a t => simp only [List.take_succ_cons, ih]

theorem isEmpty_take_of_pos {α : Type} (n : Nat) (hn : 0 < n) (l : List α) :
    (l.take n).isEmpty = l.isEmpty := by
  cases n with
  | zero => omega
  | succ k => cases l <;> simp

/-- C9: on any input that fails XML parsing, `extract_features_from_xosc`
returns the fully empty digest (all scalar fields `None`, all list fields
empty) instead of raising; totality over arbitrary inputs holds because the
`try/except` around parsing is the only fallible step. -/
theorem C9_parse_failure_empty_digest :
    extract_features_from_xosc none =
      { map := none, time_of_day := none, weather_cloud_state := none,
        weather_precipitation := none, weather_fog := none, weather_wind := none,
        entities := [], initial_positions := [], events := [] } := rfl

/-- C10: the rendered prompt depends only on the first 10 entities, the
first 6 initial positions and the first 10 events of the digest — entries
beyond those limits are silently dropped, so rendering a digest and
rendering its truncation produce the same text. -/
theorem C10_render_truncates (feat : Feat) :
    features_to_compact_prompt feat = features_to_compact_prompt (truncateFeat feat) := by
  cases feat with
  | mk m t wc wp wf ww ents ips evs =>
    simp only [features_to_compact_prompt, truncateFeat]
    rw [take_idem, take_idem, take_idem]
    rw [isEmpty_take_of_pos 10 (by decide) ents, isEmpty_take_of_pos 6 (by decide) ips,
        isEmpty_take_of_pos 10 (by decide) evs]

/-! ## Injector claims -/

/-- C6 counterexample: with the seed-fixed shared stream, processing the
same two files in the two possible orders gives the second-listed file of
the first run (taken first in the second run) two different outputs — a
pedestrian is injected into whichever file consumes the first draw. -/
theorem C6_counterexample :
    (processBatch [C6da, C6db] 100 ⟨C6stream, 0⟩).getD 1 C6db
      ≠ (processBatch [C6db, C6da] 100 ⟨C6stream, 0⟩).getD 0 C6db := by
  with_unfolding_all decide

/-- C6 (amended): the batch draws every file's mutations from the single
stream seeded once in `main` — the `i`-th file's output is the mutation
pipeline applied at the stream state left by its predecessors (so outcomes
are deterministic for a fixed ordering, but not order-independent: the
stream is shared and sequential, not per-file partitioned). -/
theorem C6_amended_shared_stream :
    (∀ (ds : List XElem) (base : Nat) (g : RNG) (i : Nat) (d0 : XElem),
        i < ds.length →
        (processBatch ds base g).getD i d0 =
          (process_file_mutations (ds.getD i d0) base (rngAfter (ds.take i) base g)).1) ∧
    (processBatch [C6da, C6db] 100 ⟨C6stream, 0⟩).getD 1 C6db
      ≠ (processBatch [C6db, C6da] 100 ⟨C6stream, 0⟩).getD 0 C6db := by
  constructor
  · intro ds
    induction ds with
    | nil =>
      intro base g i d0 h
      simp at h
    | cons d ds ih =>
      intro base g i d0 h
      cases i with
      | zero =>
        simp [processBatch, rngAfter]
      | succ j =>
        have hj : j < ds.length := by simpa using h
        have hlhs : (processBatch (d :: ds) base g).getD (j + 1) d0 =
            (processBatch ds base (process_file_mutations d base g).2).getD j d0 := by
          simp [processBatch]
        have hrec := ih base (process_file_mutations d base g).2 j d0 hj
        have htake : rngAfter ((d :: ds).take (j + 1)) base g =
            rngAfter (ds.take j) base (process_file_mutations d base g).2 := rfl
        rw [hlhs, hrec, ← htake]
        rfl
  · with_unfolding_all decide

/-- C6 witness: the shared-stream characterization at the second file of
the concrete two-file batch. -/
theorem C6_witness :
    1 < ([C6da, C6db] : List XElem).length ∧
    (processBatch [C6da, C6db] 100 ⟨C6stream, 0⟩).getD 1 C6db =
      (process_file_mutations (([C6da, C6db] : List XElem).getD 1 C6db) 100
        (rngAfter (([C6da, C6db] : List XElem).take 1) 100 ⟨C6stream, 0⟩)).1 :=
  ⟨by decide, C6_amended_shared_stream.1 [C6da, C6db] 100 ⟨C6stream, 0⟩ 1 C6db (by decide)⟩

/-- C8 counterexample: the window length the script computes is 209433599
seconds; offset 0 renders the claimed lower endpoint, the maximal
`randrange` outcome `delta − 1` renders `2025-08-20T23:59:58`, while the
claimed upper endpoint `2025-08-20T23:59:59` is the rendering of offset
`delta` itself — which `randrange(delta)` never returns (concretely, a
draw just below 1 still yields `delta − 1`). -/
theorem C8_counterexample :
    delta_seconds = 209433599 ∧
    fmtFromStart 0 = "2019-01-01T00:00:00" ∧
    fmtFromStart (delta_seconds - 1) = "2025-08-20T23:59:58" ∧
    fmtFromStart delta_seconds = "2025-08-20T23:59:59" ∧
    (random_datetime_secs ⟨fun _ => 1 - 1 / (2 * (delta_seconds : ℚ)), 0⟩).1
      = delta_seconds - 1 := by
  with_unfolding_all decide

/-- C8 (amended): whenever a `TimeOfDay` node exists the mutation always
fires (every in-range draw passes the probability-1 gate), and the new
timestamp is `start + r` seconds with `r = randrange(delta)` uniform on
the half-open range `[0, delta)` — every offset below `delta` is
attainable, while the claimed upper endpoint corresponds to `r = delta`
and is never produced. -/
theorem C8_amended_halfopen (g : RNG) (h0 : 0 ≤ g.stream g.idx) (h1 : g.stream g.idx < 1) :
    g.stream g.idx < PROB_TOD ∧
    (random_datetime_secs g).1 < delta_seconds ∧
    (random_datetime_post_2018 g).1 = fmtFromStart (random_datetime_secs g).1 ∧
    (∀ r : Nat, r < delta_seconds →
      (random_datetime_secs ⟨fun _ => (r : ℚ) / (delta_seconds : ℚ), 0⟩).1 = r) := by
  have hdpos : 0 < delta_seconds := by decide
  have hdq : (0 : ℚ) < (delta_seconds : ℚ) := by exact_mod_cast hdpos
  refine ⟨?_, ?_, rfl, ?_⟩
  · simpa [PROB_TOD] using h1
  · show Int.toNat ⌊g.stream g.idx * (delta_seconds : ℚ)⌋ < delta_seconds
    have hlt : g.stream g.idx * (delta_seconds : ℚ) < (delta_seconds : ℚ) :=
      (mul_lt_iff_lt_one_left hdq).mpr h1
    have hfl : ⌊g.stream g.idx * (delta_seconds : ℚ)⌋ < (delta_seconds : Int) :=
      Int.floor_lt.mpr (by exact_mod_cast hlt)
    omega
  · intro r hr
    show Int.toNat ⌊(r : ℚ) / (delta_seconds : ℚ) * (delta_seconds : ℚ)⌋ = r
    rw [div_mul_cancel₀ _ (ne_of_gt hdq), Int.floor_natCast, Int.toNat_natCast]

/-- C8 witness: the half-open-range bound at the all-halves stream. -/
theorem C8_witness :
    ((0 : ℚ) ≤ C8g.stream C8g.idx ∧ C8g.stream C8g.idx < 1) ∧
    (random_datetime_secs C8g).1 < delta_seconds :=
  ⟨⟨by norm_num [C8g], by norm_num [C8g]⟩,
    (C8_amended_halfopen C8g (by norm_num [C8g]) (by norm_num [C8g])).2.1⟩

/-! ## Validation outcome claims -/

/-- C2 counterexample: an `ok = None` outcome (schema unavailable) is
recorded exactly like an ordinary `ok = False` validation failure, and a
batch containing such a file still processes — and saves — the next one;
nothing halts. -/
theorem C2_counterexample :
    reduce_outcome "<x/>" none (some "schema missing")
        = (false, none, some "xsd_invalid: schema missing") ∧
    reduce_outcome "<x/>" (some false) (some "schema missing")
        = (false, none, some "xsd_invalid: schema missing") ∧
    reduce_batch [("<a/>", none, some "schema missing"), ("<b/>", some true, none)]
        = [(false, none, some "xsd_invalid: schema missing"), (true, some "<b/>", none)] ∧
    inject_batch [("<a/>", none, some "schema missing"), ("<b/>", some true, none)]
        = [(none, some "schema missing"), (some "<b/>", none)] := by
  decide

/-- C2 (amended): neither script distinguishes the schema-unavailable
outcome: `ok = None` takes the same branch as `ok = False` in both
`process_file`s, and both batch loops process every file regardless of any
outcome — the run is never halted. -/
theorem C2_amended_conflated :
    (∀ (red : String) (err : Option String),
        reduce_outcome red none err = reduce_outcome red (some false) err) ∧
    (∀ (xml : String) (err : Option String),
        inject_outcome xml none err = inject_outcome xml (some false) err) ∧
    (∀ (files : List (String × Option Bool × Option String)),
        (reduce_batch files).length = files.length) ∧
    (∀ (files : List (String × Option Bool × Option String)),
        (inject_batch files).length = files.length) := by
  refine ⟨fun red err => rfl, fun xml err => rfl, fun files => ?_, fun files => ?_⟩
  · simp [reduce_batch]
  · simp [inject_batch]

/-! ## Namespace insensitivity of the reduction -/

theorem mapTagsList_eq_map (f : String → String) (l : List XElem) :
    mapTagsList f l = l.map (mapTags f) := by
  induction l with
  | nil => rfl
  | cons c cs ih => simp only [mapTagsList, List.map_cons, ih]

theorem mapTags_nid (f : String → String) (e : XElem) : (mapTags f e).nid = e.nid := by
  cases e; rfl

theorem mapTags_tag (f : String → String) (e : XElem) : (mapTags f e).tag = f e.tag := by
  cases e; rfl

theorem mapTags_attrs (f : String → String) (e : XElem) : (mapTags f e).attrs = e.attrs := by
  cases e; rfl

theorem mapTags_children (f : String → String) (e : XElem) :
    (mapTags f e).children = e.children.map (mapTags f) := by
  cases e; simp only [mapTags]; exact mapTagsList_eq_map f _

theorem getAttr_mapTags (f : String → String) (e : XElem) (k : String) :
    getAttr (mapTags f e) k = getAttr e k := by
  cases e; rfl

theorem localname_mapTags {f : String → String} (hf : ∀ s, localname (f s) = localname s)
    (e : XElem) : localname (mapTags f e).tag = localname e.tag := by
  rw [mapTags_tag, hf]

mutual
theorem preorder_mapTags (f : String → String) :
    ∀ t, preorder (mapTags f t) = (preorder t).map (mapTags f)
  | .mk i t a cs => by
    simp only [mapTags, preorder, List.map_cons]
    rw [preorderList_mapTags f cs]

theorem preorderList_mapTags (f : String → String) :
    ∀ l, preorderList (mapTagsList f l) = (preorderList l).map (mapTags f)
  | [] => rfl
  | c :: cs => by
    simp only [mapTagsList, preorderList, List.map_append]
    rw [preorder_mapTags f c, preorderList_mapTags f cs]
end

theorem hasChildLocal_mapTags {f : String → String} (hf : ∀ s, localname (f s) = localname s)
    (e : XElem) (n : String) : hasChildLocal (mapTags f e) n = hasChildLocal e n := by
  simp only [hasChildLocal, mapTags_children, any_map_fn]
  exact any_fn_congr _ (fun c _ => by rw [localname_mapTags hf])

theorem findall_local_mapTags {f : String → String} (hf : ∀ s, localname (f s) = localname s)
    (t : XElem) (n : String) :
    findall_local (mapTags f t) n = (findall_local t n).map (mapTags f) := by
  simp only [findall_local, preorder_mapTags, filter_map_fn]
  rw [filter_fn_congr _ (fun e _ => by rw [localname_mapTags hf])]

mutual
theorem pruneIf_mapTags {f : String → String} {p q : XElem → Bool}
    (hpq : ∀ e, p (mapTags f e) = q e) :
    ∀ t, pruneIf p (mapTags f t) = mapTags f (pruneIf q t)
  | .mk i t a cs => by
    simp only [mapTags, pruneIf]
    rw [pruneList_mapTags hpq cs]

theorem pruneList_mapTags {f : String → String} {p q : XElem → Bool}
    (hpq : ∀ e, p (mapTags f e) = q e) :
    ∀ l, pruneList p (mapTagsList f l) = mapTagsList f (pruneList q l)
  | [] => rfl
  | c :: cs => by
    simp only [mapTagsList, pruneList, hpq c]
    rcases Bool.eq_false_or_eq_true (q c) with h | h
    · rw [h, if_pos rfl]
      exact pruneList_mapTags hpq cs
    · rw [h, if_neg (by decide : ¬(false = true))]
      rw [pruneIf_mapTags hpq c, pruneList_mapTags hpq cs]
      rfl
end

theorem removeById_mapTags (f : String → String) (i : Nat) (t : XElem) :
    removeById i (mapTags f t) = mapTags f (removeById i t) := by
  simp only [removeById]
  exact pruneIf_mapTags (fun e => by simp only [mapTags_nid]) t

theorem mg_refs_mapTags {f : String → String} (hf : ∀ s, localname (f s) = localname s)
    (mg : XElem) (s : String) :
    mg_refs_second_vehicle (mapTags f mg) s = mg_refs_second_vehicle mg s := by
  simp only [mg_refs_second_vehicle, preorder_mapTags, any_map_fn]
  exact any_fn_congr _ (fun a _ => by rw [localname_mapTags hf, getAttr_mapTags])

theorem name_to_obj_get_mapTags (f : String → String) (sos : List XElem) (key : String) :
    name_to_obj_get (sos.map (mapTags f)) key = (name_to_obj_get sos key).map (mapTags f) := by
  simp only [name_to_obj_get]
  rcases eq_or_ne key "" with h | h
  · simp [h]
  · rw [if_neg h, if_neg h, filter_map_fn,
      filter_fn_congr _ (fun so _ => by rw [getAttr_mapTags]), getLast?_map_fn]

theorem privPred_mapTags {f : String → String} (hf : ∀ s, localname (f s) = localname s)
    (allowed : List String) (e : XElem) :
    privPred allowed (mapTags f e) = privPred allowed e := by
  simp only [privPred, localname_mapTags hf, getAttr_mapTags]

theorem mgPred_mapTags {f : String → String} (hf : ∀ s, localname (f s) = localname s)
    (svn : Option String) (e : XElem) :
    mgPred svn (mapTags f e) = mgPred svn e := by
  simp only [mgPred, localname_mapTags hf]
  cases svn with
  | none => rfl
  | some s =>
    dsimp only
    rw [mg_refs_mapTags hf]

theorem storyPred_mapTags {f : String → String} (hf : ∀ s, localname (f s) = localname s)
    (i : Nat) (e : XElem) :
    storyPred i (mapTags f e) = storyPred i e := by
  simp only [storyPred, localname_mapTags hf, mapTags_nid]

theorem pass1Step_mapTags {f : String → String} (hf : ∀ s, localname (f s) = localname s)
    (ego sv : Option XElem) (r so : XElem) :
    pass1Step (ego.map (mapTags f)) (sv.map (mapTags f)) (mapTags f r) (mapTags f so)
      = mapTags f (pass1Step ego sv r so) := by
  cases ego <;> cases sv <;>
    simp only [Option.map_none', Option.map_some', pass1Step, mapTags_nid,
      hasChildLocal_mapTags hf, apply_ite (mapTags f), removeById_mapTags]

theorem pass1_fold_mapTags {f : String → String} (hf : ∀ s, localname (f s) = localname s)
    (ego sv : Option XElem) :
    ∀ (l : List XElem) (r : XElem),
      (l.map (mapTags f)).foldl
          (pass1Step (ego.map (mapTags f)) (sv.map (mapTags f))) (mapTags f r)
        = mapTags f (l.foldl (pass1Step ego sv) r)
  | [], _ => rfl
  | so :: l, r => by
    simp only [List.map_cons, List.foldl_cons]
    rw [pass1Step_mapTags hf ego sv r so]
    exact pass1_fold_mapTags hf ego sv l (pass1Step ego sv r so)

theorem bind_name_mapTags (f : String → String) (o : Option XElem) :
    (Option.map (mapTags f) o).bind (fun so => getAttr so "name")
      = o.bind (fun so => getAttr so "name") := by
  cases o with
  | none => rfl
  | some x => dsimp only [Option.map, Option.bind]; rw [getAttr_mapTags]

theorem sv2_map_out (g : XElem → XElem) (svn : Option String) (N : String → Option XElem) :
    (match svn with
      | some s => if s ≠ "" then (N s).map g else none
      | none => none)
    = (match svn with
      | some s => if s ≠ "" then N s else none
      | none => none).map g := by
  cases svn with
  | none => rfl
  | some s =>
    dsimp only
    rcases eq_or_ne s "" with h | h
    · simp [h]
    · rw [if_pos h, if_pos h]

theorem match_pair_map (g : XElem → XElem) (x : Option XElem) (y : Option String) :
    (match x.map g, y with
      | some _, some s => if s ≠ "" then [s] else []
      | _, _ => ([] : List String))
    = (match x, y with
      | some _, some s => if s ≠ "" then [s] else []
      | _, _ => []) := by
  cases x <;> cases y <;> rfl

theorem pruneIf_privPred_mapTags {f : String → String}
    (hf : ∀ s, localname (f s) = localname s) (allowed : List String) (t : XElem) :
    pruneIf (privPred allowed) (mapTags f t) = mapTags f (pruneIf (privPred allowed) t) :=
  pruneIf_mapTags (privPred_mapTags hf allowed) t

theorem pruneIf_mgPred_mapTags {f : String → String}
    (hf : ∀ s, localname (f s) = localname s) (svn : Option String) (t : XElem) :
    pruneIf (mgPred svn) (mapTags f t) = mapTags f (pruneIf (mgPred svn) t) :=
  pruneIf_mapTags (mgPred_mapTags hf svn) t

theorem story_match_mapTags {f : String → String}
    (hf : ∀ s, localname (f s) = localname s) (S : List XElem) (R : XElem) :
    (match S.map (mapTags f) with
      | [] => mapTags f R
      | st0 :: rest =>
        if rest.isEmpty then mapTags f R
        else pruneIf (storyPred st0.nid) (mapTags f R))
    = mapTags f (match S with
      | [] => R
      | st0 :: rest =>
        if rest.isEmpty then R else pruneIf (storyPred st0.nid) R) := by
  cases S with
  | nil => rfl
  | cons st0 rest =>
    cases rest with
    | nil => rfl
    | cons b bs =>
      dsimp only [List.map_cons, List.isEmpty]
      rw [if_neg (by decide : ¬(false = true)), if_neg (by decide : ¬(false = true))]
      rw [mapTags_nid]
      exact pruneIf_mapTags (storyPred_mapTags hf st0.nid) R

theorem reduce_mapTags {f : String → String} (hf : ∀ s, localname (f s) = localname s)
    (t : XElem) :
    reduce_xosc_tree (mapTags f t) = mapTags f (reduce_xosc_tree t) := by
  simp only [reduce_xosc_tree, findall_local_mapTags hf, name_to_obj_get_mapTags,
    filter_map_fn, getAttr_mapTags, hasChildLocal_mapTags hf, head?_map_fn,
    bind_name_mapTags, pass1_fold_mapTags hf, sv2_map_out, match_pair_map,
    pruneIf_privPred_mapTags hf, pruneIf_mgPred_mapTags hf]
  exact story_match_mapTags hf _ _

theorem localname_nsWrap (s : String) : localname (nsWrap s) = localname s := by
  have hd : ("\x7bns\x7d" ++ localname s).data
      = '\x7b' :: 'n' :: 's' :: '\x7d' :: (localname s).data := by
    rw [String.data_append]; rfl
  simp only [nsWrap, localname, hd, afterBrace]
  rw [if_neg (by decide), if_neg (by decide), if_neg (by decide)]
  cases afterBrace s.data <;> rfl

/-- C7 counterexample: the describer's element matching is
namespace-sensitive — `ElementTree` paths match fully-qualified tags — so
the namespaced rendering of a document and the plain document yield
different digests (here the map entry is lost). -/
theorem C7_counterexample :
    extract_features_from_xosc (some (mapTags nsWrap C7plain))
      ≠ extract_features_from_xosc (some C7plain) := by
  decide

/-- C7 (amended): reduction matches by local name only — any tag renaming
preserving local names commutes with `reduce_xosc_tree` — but feature
extraction is namespace-sensitive: extracting a namespaced document
differs from extracting its plain counterpart. -/
theorem C7_reduce_local_extract_sensitive (f : String → String)
    (hf : ∀ s, localname (f s) = localname s) (t : XElem) :
    reduce_xosc_tree (mapTags f t) = mapTags f (reduce_xosc_tree t) ∧
    extract_features_from_xosc (some (mapTags nsWrap C7plain))
      ≠ extract_features_from_xosc (some C7plain) :=
  ⟨reduce_mapTags hf t, by decide⟩

/-- C7 witness: the commutation at the namespace-prefixing renaming and
the rendered four-entity document. -/
theorem C7_witness :
    localname (nsWrap "Story") = localname "Story" ∧
    reduce_xosc_tree (mapTags nsWrap (toXElem C5doc))
      = mapTags nsWrap (reduce_xosc_tree (toXElem C5doc)) :=
  ⟨localname_nsWrap "Story",
    (C7_reduce_local_extract_sensitive nsWrap localname_nsWrap (toXElem C5doc)).1⟩

end S2P